import Mathlib

/-!
Verification development for the body-pose-vr-tracker relay servers.

Shallow embedding of the room/session logic of
`src/pose-tracker-websocket/server.js` (the deployment server),
the pairing detection of `src/local/local-server.js` (the development
server), and the reconnection controller of
`src/src/utils/WebSocketManager.js`.

JavaScript `Map`s are modelled as insertion-ordered association lists
(`mlook` is `Map.get`, `mset` is `Map.set`, `mdel` is `Map.delete`,
`mhas` is `Map.has`).  A websocket object is identified with its session
id: its mutable fields (`roomId`, `readyState`, `capabilities`) live in
the `conns` map of the server state, mirroring the `ws.sessionId`,
`ws.roomId`, `ws.readyState`, `ws.deviceType` fields of the source.
This identification is exact on runs in which a connect never reuses the
session id of a still-registered socket (the source keeps two distinct
socket objects in that case); statements that depend on it carry the
`wfRun` hypothesis.  JavaScript truthiness is modelled explicitly: the
guards `if (ws.roomId)`, `if (roomId)` and `if (message.targetSession)`
of the source are false for the empty string as well as for `null`.
`Date.now()` values are passed in explicitly as `now : Nat`.
Observable output (every `ws.send`) is collected as a list of events.
-/

namespace PT

/-- Map.get of a JavaScript Map modelled as an insertion-ordered
association list: returns the value at the first matching key. -/
def mlook {β : Type} : List (String × β) → String → Option β
  | [], _ => none
  | (k0, v) :: rest, k => if k0 = k then some v else mlook rest k

/-- Map.set: replaces the value in place when the key is present
(keeping its position, as JavaScript Maps do), appends otherwise. -/
def mset {β : Type} : List (String × β) → String → β → List (String × β)
  | [], k, v => [(k, v)]
  | (k0, v0) :: rest, k, v =>
    if k0 = k then (k, v) :: rest else (k0, v0) :: mset rest k v

/-- Map.delete: removes the entry with the given key. -/
def mdel {β : Type} : List (String × β) → String → List (String × β)
  | [], _ => []
  | (k0, v0) :: rest, k =>
    if k0 = k then mdel rest k else (k0, v0) :: mdel rest k

/-- Map.has. -/
def mhas {β : Type} (m : List (String × β)) (k : String) : Bool :=
  (mlook m k).isSome

/-- The keys of an association list are pairwise distinct (true of every
JavaScript Map and preserved by all the operations above). -/
def keysNodup {β : Type} (m : List (String × β)) : Prop :=
  (m.map Prod.fst).Nodup

/-- A pose landmark record (coordinates quantised to integers; the claims
never inspect the numeric values). -/
structure Landmark where
  x : Int
  y : Int
  z : Int
  visibility : Int
deriving DecidableEq, Repr

/-- The payload of an inbound `pose_data` envelope. -/
structure PoseMsg where
  timestamp : Nat
  landmarks : List Landmark
  metadata : String
deriving DecidableEq, Repr

instance : Inhabited PoseMsg := ⟨⟨0, [], ""⟩⟩

/-- The payload of an inbound `sync_request` envelope: the optional
target session named by the sender, plus the rest of the message, which
is forwarded verbatim. -/
structure SyncMsg where
  targetSession : Option String
  payload : String
deriving DecidableEq, Repr

/-- A participant record stored in `room.participants` under the session
id key: `{ ws, deviceType, joinedAt }` (the `ws` reference is the entry
key in this model). -/
structure PInfo where
  deviceType : String
  joinedAt : Nat
deriving DecidableEq, Repr

/-- Every server-to-client envelope the modelled handlers can produce. -/
inductive Envelope where
  | connected (sessionId deviceType : String) (serverTime : Nat) (connectionId : String)
  | roomJoined (roomId : String) (participants : List (String × PInfo)) (roomCreated : Nat)
  | participantJoined (sessionId deviceType : String) (joinedAt : Nat)
  | participantLeft (sessionId deviceType : String)
  | pairingSuccess (devices : List String)
  | poseData (sessionId deviceType : String) (timestamp : Nat)
      (landmarks : List Landmark) (metadataOrig : String)
      (serverReceived : Nat) (latency : Int)
  | deviceRegistered (sessionId : String) (capabilities : String)
  | pong (timestamp : Nat)
  | roomList (rooms : List (String × Nat × Nat × List String))
  | error (message : String) (timestamp : Nat)
  | syncForward (orig : SyncMsg) (sourceSession : String)
deriving DecidableEq, Repr

/-- JSON.stringify, modelled as a plain total function on envelopes.  The
claims only use it to state that every recipient of one broadcast gets
the same string. -/
def serialize : Envelope → String
  | .connected sid dt t cid => "connected/" ++ sid ++ "/" ++ dt ++ "/" ++ toString t ++ "/" ++ cid
  | .roomJoined rid ps c =>
      "room_joined/" ++ rid ++ "/" ++ toString c ++ "/" ++
        String.intercalate "," (ps.map (fun p => p.1 ++ ":" ++ p.2.deviceType))
  | .participantJoined sid dt t => "participant_joined/" ++ sid ++ "/" ++ dt ++ "/" ++ toString t
  | .participantLeft sid dt => "participant_left/" ++ sid ++ "/" ++ dt
  | .pairingSuccess ds => "pairing_success/" ++ String.intercalate "," ds
  | .poseData sid dt t ls md r l =>
      "pose_data/" ++ sid ++ "/" ++ dt ++ "/" ++ toString t ++ "/" ++
        toString ls.length ++ "/" ++ md ++ "/" ++ toString r ++ "/" ++ toString l
  | .deviceRegistered sid caps => "device_registered/" ++ sid ++ "/" ++ caps
  | .pong t => "pong/" ++ toString t
  | .roomList rs => "room_list/" ++ String.intercalate "," (rs.map Prod.fst)
  | .error m t => "error/" ++ m ++ "/" ++ toString t
  | .syncForward m src =>
      "sync_request/" ++ (m.targetSession.getD "") ++ "/" ++ m.payload ++ "/" ++ src

/-- One observable delivery.  `send sid env` is a `send(ws, message)`
call delivering `JSON.stringify(message)` to `sid`; `bcast sid env` is a
delivery performed inside `broadcastToRoom`, whose wire payload is the
one shared `messageStr = JSON.stringify(message)` — i.e. `serialize env`. -/
inductive Ev where
  | send (sid : String) (env : Envelope)
  | bcast (sid : String) (env : Envelope)
deriving DecidableEq, Repr

/-- The recipient of a delivery. -/
def recipOf : Ev → String
  | .send sid _ => sid
  | .bcast sid _ => sid

/-- The envelope carried by a delivery. -/
def envOf : Ev → Envelope
  | .send _ env => env
  | .bcast _ env => env

/-- The wire payload of a delivery. -/
def payloadOf (e : Ev) : String := serialize (envOf e)

/-- Whether a delivery carries an `error` envelope. -/
def isErrorEv (e : Ev) : Bool :=
  match envOf e with
  | .error _ _ => true
  | _ => false

/-- Whether a delivery carries a `pairing_success` envelope. -/
def isPairingEv (e : Ev) : Bool :=
  match envOf e with
  | .pairingSuccess _ => true
  | _ => false

/-- The mutable per-websocket fields of the source: `ws.deviceType`
(immutable after connect), `ws.roomId`, `ws.readyState === OPEN`, and
`ws.capabilities`. -/
structure WsState where
  deviceType : String
  roomId : Option String
  isOpen : Bool
  capabilities : Option String
deriving DecidableEq, Repr

/-- A room: `{ id, created, participants }`; the id is the key in the
rooms map. -/
structure Room where
  created : Nat
  participants : List (String × PInfo)
deriving DecidableEq, Repr

/-- One rate-limiter entry: `{ count, resetTime }`. -/
structure RateEntry where
  count : Nat
  resetTime : Nat
deriving DecidableEq, Repr

/-- The global mutable state of server.js: the `connections` map (which
also carries each websocket object's fields), the `rooms` map and the
`poseDataLimits` map. -/
structure ServerState where
  conns : List (String × WsState)
  rooms : List (String × Room)
  poseLimits : List (String × RateEntry)
deriving DecidableEq, Repr

/-- The state at process start: all three maps empty. -/
def initialState : ServerState := ⟨[], [], []⟩

/-- JavaScript truthiness of a nullable string: `if (x)` is false exactly
for `null` and the empty string.  Used wherever the source guards on
`ws.roomId`, the `roomId` URL parameter or `message.targetSession`. -/
def truthy : Option String → Bool
  | none => false
  | some str => decide (str ≠ "")

/-- Whether the connection registered under `sid` is currently open
(`ws.readyState === ws.OPEN`). -/
def connIsOpen (s : ServerState) (sid : String) : Bool :=
  match mlook s.conns sid with
  | some ws => ws.isOpen
  | none => false

/-- The `send(ws, message)` helper: serializes and delivers only when the
connection is open, otherwise does nothing. -/
def sendEv (s : ServerState) (sid : String) (env : Envelope) : List Ev :=
  if connIsOpen s sid then [Ev.send sid env] else []

/-- The `sendError(ws, message)` helper: sends
`{ type: "error", message, timestamp: Date.now() }`. -/
def sendErrorEv (s : ServerState) (sid : String) (msg : String) (now : Nat) : List Ev :=
  sendEv s sid (.error msg now)

/-- `broadcastToRoom(roomId, message, excludeSession = null)`: no-op when
the room is absent; otherwise serializes once and delivers that string to
every participant other than the excluded session whose connection is
open at send time.  The source reads openness off the socket object
stored in the participant entry (`participant.ws.readyState`); this model
identifies that socket with the participant's session-id key and reads
its fields from the `conns` registry, which coincides with the source
exactly when no connect ever reuses the id of a live session and no
session joins the empty room code (the `wfRun` discipline below): under
it, `memRoomOf` shows every participant entry's key resolves in the
registry to the same socket the entry holds, and a closed socket's
memberships are removed by its own cleanup before the id can recur. -/
def broadcastToRoom (s : ServerState) (roomId : String) (env : Envelope)
    (excludeSession : Option String) : List Ev :=
  match mlook s.rooms roomId with
  | none => []
  | some room =>
    (room.participants.filter
      (fun p => decide (some p.1 ≠ excludeSession) && connIsOpen s p.1)).map
      (fun p => Ev.bcast p.1 env)

/-- Assignment to the `ws.roomId` field of the websocket registered under
`sid`. -/
def setWsRoomId (s : ServerState) (sid : String) (r : Option String) : ServerState :=
  match mlook s.conns sid with
  | some ws => { s with conns := mset s.conns sid { ws with roomId := r } }
  | none => s

/-- `leaveRoom(ws)` of server.js (local-server.js line-for-line
identical): early return when `ws.roomId` is falsy — null or the empty
string, `if (!ws.roomId || ...)` — or names an absent room; otherwise
remove the participant, broadcast `participant_left`, delete the room if
it emptied, and clear `ws.roomId`. -/
def leaveRoom (s : ServerState) (sid : String) : ServerState × List Ev :=
  match mlook s.conns sid with
  | none => (s, [])
  | some ws =>
    match ws.roomId with
    | none => (s, [])
    | some rid =>
      if rid = "" then (s, [])
      else
      match mlook s.rooms rid with
      | none => (s, [])
      | some room =>
        let room1 : Room := { room with participants := mdel room.participants sid }
        let s1 := { s with rooms := mset s.rooms rid room1 }
        let evs := broadcastToRoom s1 rid (.participantLeft sid ws.deviceType) none
        let s2 := if room1.participants.isEmpty
                  then { s1 with rooms := mdel s1.rooms rid } else s1
        (setWsRoomId s2 sid none, evs)

/-- `joinRoom(ws, roomId)` of server.js: leave the current room first —
only when the current `ws.roomId` is truthy, `if (ws.roomId)`, so a
session whose current room code is the empty string is not removed from
it — create the room if unseen, insert the participant, set `ws.roomId`,
send `room_joined` (participants excluding self, plus the room's
creation timestamp) to the joiner, and broadcast `participant_joined` to
the rest of the room. -/
def joinRoom (s0 : ServerState) (sid roomId : String) (now : Nat) : ServerState × List Ev :=
  match mlook s0.conns sid with
  | none => (s0, [])
  | some ws0 =>
    let sl := if truthy ws0.roomId then leaveRoom s0 sid else (s0, [])
    let s1 := sl.1
    let rooms1 := if mhas s1.rooms roomId then s1.rooms
                  else mset s1.rooms roomId { created := now, participants := [] }
    let room0 : Room :=
      match mlook rooms1 roomId with
      | some r => r
      | none => { created := now, participants := [] }
    let room1 : Room :=
      { room0 with participants :=
          (mset room0.participants sid { deviceType := ws0.deviceType, joinedAt := now }) }
    let s2 := setWsRoomId { s1 with rooms := mset rooms1 roomId room1 } sid (some roomId)
    let evJ := sendEv s2 sid
      (.roomJoined roomId (room1.participants.filter (fun p => decide (p.1 ≠ sid)))
        room1.created)
    let evB := broadcastToRoom s2 roomId (.participantJoined sid ws0.deviceType now) (some sid)
    (s2, sl.2 ++ evJ ++ evB)

/-- `joinRoom(ws, roomId)` of local-server.js: identical to the
deployment server's join, followed by the pairing check: if the post-join
participant snapshot holds at least one `mobile` and at least one `vr`
device, broadcast `pairing_success` (with the device list) to the whole
room with no exclusion.  The pre-join state is not consulted. -/
def localJoinRoom (s0 : ServerState) (sid roomId : String) (now : Nat) :
    ServerState × List Ev :=
  match mlook s0.conns sid with
  | none => (s0, [])
  | some ws0 =>
    let sl := if truthy ws0.roomId then leaveRoom s0 sid else (s0, [])
    let s1 := sl.1
    let rooms1 := if mhas s1.rooms roomId then s1.rooms
                  else mset s1.rooms roomId { created := now, participants := [] }
    let room0 : Room :=
      match mlook rooms1 roomId with
      | some r => r
      | none => { created := now, participants := [] }
    let room1 : Room :=
      { room0 with participants :=
          (mset room0.participants sid { deviceType := ws0.deviceType, joinedAt := now }) }
    let s2 := setWsRoomId { s1 with rooms := mset rooms1 roomId room1 } sid (some roomId)
    let evJ := sendEv s2 sid
      (.roomJoined roomId (room1.participants.filter (fun p => decide (p.1 ≠ sid)))
        room1.created)
    let evB := broadcastToRoom s2 roomId (.participantJoined sid ws0.deviceType now) (some sid)
    let hasPhone := room1.participants.any (fun p => p.2.deviceType == "mobile")
    let hasVR := room1.participants.any (fun p => p.2.deviceType == "vr")
    let evP := if hasPhone && hasVR then
        broadcastToRoom s2 roomId
          (.pairingSuccess (room1.participants.map (fun p => p.2.deviceType))) none
      else []
    (s2, sl.2 ++ evJ ++ evB ++ evP)

/-- `handlePoseData(ws, message)` of server.js: lazily-reset fixed
1000 ms window, counter incremented on every message; when the counter
exceeds 30 the message is dropped with no output of any kind; otherwise
the enriched frame is broadcast to the sender's room excluding the
sender — but only under the truthy guard `if (ws.roomId)`, which also
skips the broadcast when the session's room code is the empty string. -/
def handlePoseData (s : ServerState) (sid : String) (m : PoseMsg) (now : Nat) :
    ServerState × List Ev :=
  let lim0 := (mlook s.poseLimits sid).getD { count := 0, resetTime := now + 1000 }
  let lim1 := if lim0.resetTime < now then
      ({ count := 0, resetTime := now + 1000 } : RateEntry) else lim0
  let lim2 : RateEntry := { lim1 with count := lim1.count + 1 }
  let s1 := { s with poseLimits := mset s.poseLimits sid lim2 }
  if 30 < lim2.count then (s1, [])
  else
    match mlook s1.conns sid with
    | some ws =>
      match ws.roomId with
      | some rid =>
        if rid = "" then (s1, [])
        else
          (s1, broadcastToRoom s1 rid
            (.poseData sid ws.deviceType now m.landmarks m.metadata now
              ((now : Int) - (m.timestamp : Int))) (some sid))
      | none => (s1, [])
    | none => (s1, [])

/-- `registerDevice(ws, message)`: stores the capability descriptor on
the websocket and replies `device_registered`. -/
def registerDevice (s : ServerState) (sid : String) (caps : String) :
    ServerState × List Ev :=
  match mlook s.conns sid with
  | some ws =>
    let s1 := { s with conns := mset s.conns sid { ws with capabilities := some caps } }
    (s1, sendEv s1 sid (.deviceRegistered sid caps))
  | none => (s, [])

/-- `handleSyncRequest(ws, message)`: when a truthy target session is
named, forward the message (with `sourceSession` attached) if the target
is registered and open, otherwise reply an error to the sender; when the
target field is absent or the empty string the truthy guard
`if (message.targetSession)` fails and nothing at all happens. -/
def handleSyncRequest (s : ServerState) (sid : String) (m : SyncMsg) (now : Nat) :
    List Ev :=
  match m.targetSession with
  | none => []
  | some tgt =>
    if tgt = "" then []
    else
    match mlook s.conns tgt with
    | some c =>
      if c.isOpen then sendEv s tgt (.syncForward m sid)
      else sendErrorEv s sid "Target session not found" now
    | none => sendErrorEv s sid "Target session not found" now

/-- `sendRoomList(ws)`: a snapshot of every room's id, creation time,
participant count and device list. -/
def sendRoomList (s : ServerState) (sid : String) : List Ev :=
  sendEv s sid (.roomList (s.rooms.map (fun p =>
    (p.1, p.2.created, p.2.participants.length,
      p.2.participants.map (fun q => q.2.deviceType)))))

/-- A decoded inbound envelope, discriminated exactly as the `switch` of
`handleMessage` discriminates on `message.type`; `unknown t` covers every
unrecognized discriminator `t`. -/
inductive Msg where
  | joinRoomMsg (roomId : String)
  | leaveRoomMsg
  | poseDataMsg (m : PoseMsg)
  | deviceRegisterMsg (capabilities : String)
  | pingMsg
  | syncRequestMsg (m : SyncMsg)
  | roomListMsg
  | unknown (t : String)
deriving DecidableEq, Repr

/-- An inbound frame: either not well-formed JSON, or a decoded message. -/
inductive Frame where
  | malformed
  | wellFormed (m : Msg)
deriving DecidableEq, Repr

/-- `handleMessage(ws, message)` of server.js. -/
def handleMessage (s : ServerState) (sid : String) (m : Msg) (now : Nat) :
    ServerState × List Ev :=
  match m with
  | .joinRoomMsg rid => joinRoom s sid rid now
  | .leaveRoomMsg => leaveRoom s sid
  | .poseDataMsg pm => handlePoseData s sid pm now
  | .deviceRegisterMsg caps => registerDevice s sid caps
  | .pingMsg => (s, sendEv s sid (.pong now))
  | .syncRequestMsg sm => (s, handleSyncRequest s sid sm now)
  | .roomListMsg => (s, sendRoomList s sid)
  | .unknown t => (s, sendErrorEv s sid ("Unknown message type: " ++ t) now)

/-- The `ws.on('message')` handler: JSON.parse failure is caught and
answered with one `error` envelope; a parsed message goes to
`handleMessage`.  The connection is never closed here. -/
def onMessage (s : ServerState) (sid : String) (f : Frame) (now : Nat) :
    ServerState × List Ev :=
  match f with
  | .malformed => (s, sendErrorEv s sid "Invalid message format" now)
  | .wellFormed m => handleMessage s sid m now

/-- The session id chosen at connection time:
`url.searchParams.get('sessionId') || generateId()`.  A missing or empty
parameter falls back to a generated id (passed in as `fresh`); any other
supplied id is used as-is, with no collision check. -/
def registerSessionId (requested : Option String) (fresh : String) : String :=
  match requested with
  | some r => if r = "" then fresh else r
  | none => fresh

/-- The result of accepting one connection. -/
structure ConnectResult where
  state : ServerState
  evs : List Ev
  sid : String
deriving Repr

/-- The `wss.on('connection')` handler: pick the session id, register the
websocket (overwriting any existing entry at that id — on an id collision
the source keeps the old socket object alive with its own fields while
this model merges the registry entry, which is why the run discipline
`wfRun` below forbids such collisions), set `ws.roomId` to the URL's
`roomId` parameter unconditionally, auto-join that room only when the
parameter is truthy (`if (roomId)` — skipped for the empty string), and
send the `connected` welcome. -/
def connect (s : ServerState) (requested : Option String) (fresh fresh2 dt : String)
    (roomParam : Option String) (now : Nat) : ConnectResult :=
  let sid := registerSessionId requested fresh
  let ws : WsState := { deviceType := dt, roomId := roomParam, isOpen := true,
                        capabilities := none }
  let s1 := { s with conns := mset s.conns sid ws }
  let jr := match roomParam with
    | some rid => if rid = "" then (s1, []) else joinRoom s1 sid rid now
    | none => (s1, [])
  let evW := sendEv jr.1 sid (.connected sid dt now fresh2)
  { state := jr.1, evs := jr.2 ++ evW, sid := sid }

/-- The `ws.on('close')` handler plus `cleanup(ws)`: the socket is no
longer open, the session leaves its room, and its registry and
rate-limiter entries are purged.  (The source deletes the `connections`
entry before calling `leaveRoom`, but `leaveRoom` reads only the closing
socket's own `ws.roomId`/`ws.sessionId` fields, so the order here is
observationally identical.  The source's `leaveRoom(ws)` uses the closing
socket's fields; this model reads them from the registry entry at `sid`,
which is the same socket whenever connects never collide on a live id —
the `wfRun` discipline.) -/
def closeConn (s : ServerState) (sid : String) : ServerState × List Ev :=
  let s0 := match mlook s.conns sid with
    | some ws => { s with conns := mset s.conns sid { ws with isOpen := false } }
    | none => s
  let lr := leaveRoom s0 sid
  ({ lr.1 with conns := mdel lr.1.conns sid, poseLimits := mdel lr.1.poseLimits sid },
    lr.2)

/-- One externally-triggered step of the server. -/
inductive Op where
  | connectOp (requested : Option String) (fresh fresh2 dt : String)
      (roomParam : Option String) (now : Nat)
  | frameOp (sid : String) (f : Frame) (now : Nat)
  | closeOp (sid : String)
deriving Repr

/-- Execute one step. -/
def runOp (s : ServerState) : Op → ServerState × List Ev
  | .connectOp req f1 f2 dt rp now =>
    let r := connect s req f1 f2 dt rp now
    (r.state, r.evs)
  | .frameOp sid f now => onMessage s sid f now
  | .closeOp sid => closeConn s sid

/-- Execute a sequence of steps, keeping only the state. -/
def runOpsS : ServerState → List Op → ServerState
  | s, [] => s
  | s, op :: rest => runOpsS (runOp s op).1 rest

/-- Whether one step avoids the two degenerate inputs the source never
checks for: a connect whose effective session id is already registered
(it overwrites a live session, see C7), and a `join_room` frame naming
the empty-string room code (such a room can never be left again, because
`leaveRoom`'s truthy guard treats the code as null). -/
def wfOp (s : ServerState) : Op → Bool
  | .connectOp req fresh _ _ _ _ => !(mhas s.conns (registerSessionId req fresh))
  | .frameOp _ (.wellFormed (.joinRoomMsg rid)) _ => decide (rid ≠ "")
  | _ => true

/-- Whether a whole run avoids session-id collisions at connect and joins
of the empty-string room code. -/
def wfRun : ServerState → List Op → Bool
  | _, [] => true
  | s, op :: rest => wfOp s op && wfRun (runOp s op).1 rest

/-- Feed a list of timestamped `pose_data` messages from one session,
collecting the output of each. -/
def runPoses : ServerState → String → List (Nat × PoseMsg) → ServerState × List (List Ev)
  | s, _, [] => (s, [])
  | s, sid, (t, m) :: rest =>
    let r := handlePoseData s sid m t
    let rr := runPoses r.1 sid rest
    (rr.1, r.2 :: rr.2)

/-! ### Lemmas about the Map model -/

theorem mlook_mset_self {β : Type} (m : List (String × β)) (k : String) (v : β) :
    mlook (mset m k v) k = some v := by
  induction m with
  | nil => simp [mset, mlook]
  | cons hd tl ih =>
    obtain ⟨k0, v0⟩ := hd
    by_cases h : k0 = k
    · simp [mset, h, mlook]
    · simp [mset, h, mlook, ih]

theorem mlook_mset_ne {β : Type} (m : List (String × β)) {k k' : String} (v : β)
    (h : k' ≠ k) : mlook (mset m k v) k' = mlook m k' := by
  induction m with
  | nil => simp [mset, mlook, Ne.symm h]
  | cons hd tl ih =>
    obtain ⟨k0, v0⟩ := hd
    by_cases h0 : k0 = k
    · subst h0; simp [mset, mlook, Ne.symm h]
    · simp [mset, h0, mlook, ih]

theorem mlook_mdel_self {β : Type} (m : List (String × β)) (k : String) :
    mlook (mdel m k) k = none := by
  induction m with
  | nil => simp [mdel, mlook]
  | cons hd tl ih =>
    obtain ⟨k0, v0⟩ := hd
    by_cases h : k0 = k
    · simp [mdel, h, ih]
    · simp [mdel, h, mlook, ih]

theorem mlook_mdel_ne {β : Type} (m : List (String × β)) {k k' : String}
    (h : k' ≠ k) : mlook (mdel m k) k' = mlook m k' := by
  induction m with
  | nil => simp [mdel]
  | cons hd tl ih =>
    obtain ⟨k0, v0⟩ := hd
    by_cases h0 : k0 = k
    · subst h0; simp [mdel, mlook, Ne.symm h, ih]
    · simp [mdel, h0, mlook, ih]

theorem mem_mdel {β : Type} {m : List (String × β)} {k : String} {p : String × β}
    (h : p ∈ mdel m k) : p ∈ m ∧ p.1 ≠ k := by
  induction m with
  | nil => simp [mdel] at h
  | cons hd tl ih =>
    obtain ⟨k0, v0⟩ := hd
    by_cases h0 : k0 = k
    · simp only [mdel, if_pos h0] at h
      exact ⟨List.mem_cons_of_mem _ (ih h).1, (ih h).2⟩
    · simp only [mdel, if_neg h0] at h
      rcases List.mem_cons.mp h with h1 | h1
      · subst h1; exact ⟨List.mem_cons_self _ _, h0⟩
      · exact ⟨List.mem_cons_of_mem _ (ih h1).1, (ih h1).2⟩

theorem mem_mset {β : Type} {m : List (String × β)} {k : String} {v : β}
    {p : String × β} (h : p ∈ mset m k v) : p = (k, v) ∨ p ∈ m := by
  induction m with
  | nil => simp [mset] at h; exact Or.inl h
  | cons hd tl ih =>
    obtain ⟨k0, v0⟩ := hd
    by_cases h0 : k0 = k
    · simp only [mset, if_pos h0] at h
      rcases List.mem_cons.mp h with h1 | h1
      · exact Or.inl h1
      · exact Or.inr (List.mem_cons_of_mem _ h1)
    · simp only [mset, if_neg h0] at h
      rcases List.mem_cons.mp h with h1 | h1
      · exact Or.inr (h1 ▸ List.mem_cons_self _ _)
      · rcases ih h1 with h2 | h2
        · exact Or.inl h2
        · exact Or.inr (List.mem_cons_of_mem _ h2)

theorem mlook_eq_some_mem {β : Type} {m : List (String × β)} {k : String} {v : β}
    (h : mlook m k = some v) : (k, v) ∈ m := by
  induction m with
  | nil => simp [mlook] at h
  | cons hd tl ih =>
    obtain ⟨k0, v0⟩ := hd
    by_cases h0 : k0 = k
    · subst h0
      have h2 : v0 = v := by simpa [mlook] using h
      subst h2
      exact List.mem_cons_self _ _
    · simp only [mlook, if_neg h0] at h
      exact List.mem_cons_of_mem _ (ih h)

theorem mem_mhas {β : Type} {m : List (String × β)} {k : String} {v : β}
    (h : (k, v) ∈ m) : mhas m k = true := by
  induction m with
  | nil => simp at h
  | cons hd tl ih =>
    obtain ⟨k0, v0⟩ := hd
    rcases List.mem_cons.mp h with h1 | h1
    · obtain ⟨h2, _⟩ := Prod.mk.injEq .. ▸ h1
      simp [mhas, mlook, h2.symm]
    · by_cases h0 : k0 = k
      · simp [mhas, mlook, h0]
      · simpa [mhas, mlook, h0] using ih h1

theorem mhas_false_mlook {β : Type} {m : List (String × β)} {k : String}
    (h : mhas m k = false) : mlook m k = none := by
  unfold mhas at h
  cases hl : mlook m k with
  | none => rfl
  | some v => rw [hl] at h; simp at h

theorem mdel_of_mhas_false {β : Type} {m : List (String × β)} {k : String}
    (h : mhas m k = false) : mdel m k = m := by
  induction m with
  | nil => simp [mdel]
  | cons hd tl ih =>
    obtain ⟨k0, v0⟩ := hd
    by_cases h0 : k0 = k
    · subst h0; simp [mhas, mlook] at h
    · have htl : mhas tl k = false := by simpa [mhas, mlook, h0] using h
      simp [mdel, h0, ih htl]

theorem mset_ne_nil {β : Type} (m : List (String × β)) (k : String) (v : β) :
    mset m k v ≠ [] := by
  cases m with
  | nil => simp [mset]
  | cons hd tl =>
    obtain ⟨k0, v0⟩ := hd
    by_cases h0 : k0 = k <;> simp [mset, h0]

theorem keys_mem_of_mem_mset {β : Type} {m : List (String × β)} {k a : String} {v : β}
    (h : a ∈ (mset m k v).map Prod.fst) : a = k ∨ a ∈ m.map Prod.fst := by
  rcases List.mem_map.mp h with ⟨p, hp, hpa⟩
  rcases mem_mset hp with h1 | h1
  · left; rw [← hpa, h1]
  · right; exact List.mem_map.mpr ⟨p, h1, hpa⟩

theorem keysNodup_mset {β : Type} {m : List (String × β)} (k : String) (v : β)
    (h : keysNodup m) : keysNodup (mset m k v) := by
  induction m with
  | nil => simp [keysNodup, mset]
  | cons hd tl ih =>
    obtain ⟨k0, v0⟩ := hd
    unfold keysNodup at h
    simp only [List.map_cons, List.nodup_cons] at h
    by_cases h0 : k0 = k
    · subst h0
      have hms : mset ((k0, v0) :: tl) k0 v = (k0, v) :: tl := by simp [mset]
      unfold keysNodup
      rw [hms, List.map_cons]
      exact List.nodup_cons.mpr h
    · unfold keysNodup
      simp only [mset, if_neg h0, List.map_cons, List.nodup_cons]
      constructor
      · intro hmem
        rcases keys_mem_of_mem_mset hmem with h1 | h1
        · exact h0 h1
        · exact h.1 h1
      · exact ih h.2

theorem keysNodup_mdel {β : Type} {m : List (String × β)} (k : String)
    (h : keysNodup m) : keysNodup (mdel m k) := by
  induction m with
  | nil => simp [keysNodup, mdel]
  | cons hd tl ih =>
    obtain ⟨k0, v0⟩ := hd
    unfold keysNodup at h
    simp only [List.map_cons, List.nodup_cons] at h
    by_cases h0 : k0 = k
    · simp only [mdel, if_pos h0]
      exact ih h.2
    · unfold keysNodup
      simp only [mdel, if_neg h0, List.map_cons, List.nodup_cons]
      constructor
      · intro hmem
        rcases List.mem_map.mp hmem with ⟨p, hp, hpa⟩
        exact h.1 (List.mem_map.mpr ⟨p, (mem_mdel hp).1, hpa⟩)
      · exact ih h.2

theorem mem_mset_nodup {β : Type} {m : List (String × β)} {k : String} {v : β}
    {p : String × β} (hn : keysNodup m) (h : p ∈ mset m k v) :
    p = (k, v) ∨ (p ∈ m ∧ p.1 ≠ k) := by
  induction m with
  | nil => simp [mset] at h; exact Or.inl h
  | cons hd tl ih =>
    obtain ⟨k0, v0⟩ := hd
    unfold keysNodup at hn
    simp only [List.map_cons, List.nodup_cons] at hn
    by_cases h0 : k0 = k
    · subst h0
      simp only [mset, if_pos rfl] at h
      rcases List.mem_cons.mp h with h1 | h1
      · exact Or.inl h1
      · right
        refine ⟨List.mem_cons_of_mem _ h1, ?_⟩
        intro hk
        exact hn.1 (List.mem_map.mpr ⟨p, h1, hk⟩)
    · simp only [mset, if_neg h0] at h
      rcases List.mem_cons.mp h with h1 | h1
      · right
        exact ⟨h1 ▸ List.mem_cons_self _ _, by rw [h1]; exact h0⟩
      · rcases ih hn.2 h1 with h2 | h2
        · exact Or.inl h2
        · exact Or.inr ⟨List.mem_cons_of_mem _ h2.1, h2.2⟩

theorem mhas_exists_mem {β : Type} {m : List (String × β)} {k : String}
    (h : mhas m k = true) : ∃ v, (k, v) ∈ m := by
  unfold mhas at h
  cases hl : mlook m k with
  | none => rw [hl] at h; simp at h
  | some v => exact ⟨v, mlook_eq_some_mem hl⟩

theorem mhas_mdel_self {β : Type} (m : List (String × β)) (k : String) :
    mhas (mdel m k) k = false := by
  simp [mhas, mlook_mdel_self]

theorem length_filter_le_one {β : Type} {m : List (String × β)} {k : String}
    {P : String × β → Bool} (hn : keysNodup m) (hP : ∀ p ∈ m, P p = true → p.1 = k) :
    (m.filter P).length ≤ 1 := by
  induction m with
  | nil => simp
  | cons hd tl ih =>
    unfold keysNodup at hn
    simp only [List.map_cons, List.nodup_cons] at hn
    by_cases hPhd : P hd = true
    · have hk : hd.1 = k := hP hd (List.mem_cons_self _ _) hPhd
      have htl : tl.filter P = [] := by
        rw [List.filter_eq_nil_iff]
        intro p hp hPp
        have : p.1 = k := hP p (List.mem_cons_of_mem _ hp) (by simpa using hPp)
        exact absurd (List.mem_map.mpr ⟨p, hp, this.trans hk.symm⟩) hn.1
      simp [List.filter_cons, hPhd, htl]
    · have := ih hn.2 (fun p hp hPp => hP p (List.mem_cons_of_mem _ hp) hPp)
      simpa [List.filter_cons, hPhd] using this

theorem mset_mset_self {β : Type} (m : List (String × β)) (k : String) (v w : β) :
    mset (mset m k v) k w = mset m k w := by
  induction m with
  | nil => simp [mset]
  | cons hd tl ih =>
    obtain ⟨k0, v0⟩ := hd
    by_cases h0 : k0 = k
    · simp [mset, h0]
    · simp [mset, h0, ih]

theorem mdel_mset_self {β : Type} (m : List (String × β)) (k : String) (v : β) :
    mdel (mset m k v) k = mdel m k := by
  induction m with
  | nil => simp [mset, mdel]
  | cons hd tl ih =>
    obtain ⟨k0, v0⟩ := hd
    by_cases h0 : k0 = k
    · simp [mset, mdel, h0]
    · simp [mset, mdel, h0, ih]

/-! ### Characterizations of the room operations -/

theorem setWsRoomId_rooms (s : ServerState) (sid : String) (r : Option String) :
    (setWsRoomId s sid r).rooms = s.rooms := by
  unfold setWsRoomId
  cases mlook s.conns sid <;> rfl

theorem setWsRoomId_poseLimits (s : ServerState) (sid : String) (r : Option String) :
    (setWsRoomId s sid r).poseLimits = s.poseLimits := by
  unfold setWsRoomId
  cases mlook s.conns sid <;> rfl

theorem leaveRoom_not_conn {s : ServerState} {sid : String}
    (h : mlook s.conns sid = none) : leaveRoom s sid = (s, []) := by
  unfold leaveRoom
  rw [h]

theorem leaveRoom_no_roomId {s : ServerState} {sid : String} {ws : WsState}
    (h : mlook s.conns sid = some ws) (h2 : ws.roomId = none) :
    leaveRoom s sid = (s, []) := by
  unfold leaveRoom
  simp only [h, h2]

theorem leaveRoom_empty_rid {s : ServerState} {sid : String} {ws : WsState}
    (h : mlook s.conns sid = some ws) (h2 : ws.roomId = some "") :
    leaveRoom s sid = (s, []) := by
  unfold leaveRoom
  simp [h, h2]

theorem leaveRoom_room_missing {s : ServerState} {sid : String} {ws : WsState}
    {rid : String} (h : mlook s.conns sid = some ws) (h2 : ws.roomId = some rid)
    (h3 : mlook s.rooms rid = none) : leaveRoom s sid = (s, []) := by
  unfold leaveRoom
  simp only [h, h2, h3, ite_self]

theorem leaveRoom_eq {s : ServerState} {sid : String} {ws : WsState}
    {rid : String} {room : Room} (h : mlook s.conns sid = some ws)
    (h2 : ws.roomId = some rid) (hr0 : rid ≠ "")
    (h3 : mlook s.rooms rid = some room) :
    leaveRoom s sid =
      ({ conns := mset s.conns sid { ws with roomId := none },
         rooms := (if (mdel room.participants sid).isEmpty then mdel s.rooms rid
                   else mset s.rooms rid
                     { room with participants := mdel room.participants sid }),
         poseLimits := s.poseLimits },
       broadcastToRoom
         { s with rooms := (mset s.rooms rid
             { room with participants := mdel room.participants sid }) }
         rid (.participantLeft sid ws.deviceType) none) := by
  unfold leaveRoom
  simp only [h, h2, if_neg hr0, h3]
  by_cases he : (mdel room.participants sid).isEmpty
  · simp [he, setWsRoomId, h, mdel_mset_self]
  · simp [he, setWsRoomId, h]

theorem leave_rooms_missing {s : ServerState} {sid rid : String}
    (h : mlook s.rooms rid = none) : mlook (leaveRoom s sid).1.rooms rid = none := by
  cases hc : mlook s.conns sid with
  | none => rw [leaveRoom_not_conn hc]; exact h
  | some ws =>
    cases hrid : ws.roomId with
    | none => rw [leaveRoom_no_roomId hc hrid]; exact h
    | some rid0 =>
      by_cases hr0 : rid0 = ""
      · rw [leaveRoom_empty_rid hc (hr0 ▸ hrid)]; exact h
      · cases hroom : mlook s.rooms rid0 with
        | none => rw [leaveRoom_room_missing hc hrid hroom]; exact h
        | some room =>
          rw [leaveRoom_eq hc hrid hr0 hroom]
          have hne : rid ≠ rid0 := by
            intro he
            subst he
            rw [h] at hroom
            cases hroom
          by_cases he2 : (mdel room.participants sid).isEmpty
          · simp only [he2, if_true]
            exact (mlook_mdel_ne s.rooms hne).trans h
          · simp only [he2, if_false]
            exact (mlook_mset_ne s.rooms _ hne).trans h

theorem leave_no_empty_room {s : ServerState} {sid : String}
    (h : mhas s.rooms "" = false) :
    mhas (leaveRoom s sid).1.rooms "" = false := by
  have h2 := @leave_rooms_missing s sid "" (mhas_false_mlook h)
  unfold mhas
  rw [h2]
  rfl

/-- The tail of `joinRoom` after the leave-current-room step, factored
out so the two possible pre-states (left or unchanged) can be treated
uniformly; `joinRoom_unfold` proves the factoring against the embedding. -/
def joinRoomAfterLeave (s1 : ServerState) (sid roomId dt : String) (now : Nat) :
    ServerState × List Ev :=
  let rooms1 := if mhas s1.rooms roomId then s1.rooms
                else mset s1.rooms roomId { created := now, participants := [] }
  let room0 : Room :=
    match mlook rooms1 roomId with
    | some r => r
    | none => { created := now, participants := [] }
  let room1 : Room :=
    { room0 with participants :=
        (mset room0.participants sid { deviceType := dt, joinedAt := now }) }
  let s2 := setWsRoomId { s1 with rooms := mset rooms1 roomId room1 } sid (some roomId)
  let evJ := sendEv s2 sid
    (.roomJoined roomId (room1.participants.filter (fun p => decide (p.1 ≠ sid)))
      room1.created)
  let evB := broadcastToRoom s2 roomId (.participantJoined sid dt now) (some sid)
  (s2, evJ ++ evB)

/-- The pairing-check epilogue of the development server's `joinRoom`,
expressed over the post-join state. -/
def pairingEvsOf (s : ServerState) (rid : String) : List Ev :=
  match mlook s.rooms rid with
  | some room =>
    if room.participants.any (fun p => p.2.deviceType == "mobile") &&
       room.participants.any (fun p => p.2.deviceType == "vr") then
      broadcastToRoom s rid
        (.pairingSuccess (room.participants.map (fun p => p.2.deviceType))) none
    else []
  | none => []

theorem joinRoom_not_conn {s0 : ServerState} {sid roomId : String} {now : Nat}
    (h : mlook s0.conns sid = none) : joinRoom s0 sid roomId now = (s0, []) := by
  unfold joinRoom
  rw [h]

theorem localJoinRoom_not_conn {s0 : ServerState} {sid roomId : String} {now : Nat}
    (h : mlook s0.conns sid = none) : localJoinRoom s0 sid roomId now = (s0, []) := by
  unfold localJoinRoom
  rw [h]

theorem joinRoom_unfold {s0 : ServerState} {sid roomId : String} {now : Nat}
    {ws0 : WsState} (h : mlook s0.conns sid = some ws0) :
    joinRoom s0 sid roomId now =
      (let sl := if truthy ws0.roomId then leaveRoom s0 sid else (s0, []);
       let r := joinRoomAfterLeave sl.1 sid roomId ws0.deviceType now;
       (r.1, sl.2 ++ r.2)) := by
  unfold joinRoom joinRoomAfterLeave
  simp only [h, List.append_assoc]

theorem localJoinRoom_unfold {s0 : ServerState} {sid roomId : String} {now : Nat}
    {ws0 : WsState} (h : mlook s0.conns sid = some ws0) :
    localJoinRoom s0 sid roomId now =
      (let sl := if truthy ws0.roomId then leaveRoom s0 sid else (s0, []);
       let r := joinRoomAfterLeave sl.1 sid roomId ws0.deviceType now;
       (r.1, sl.2 ++ r.2 ++ pairingEvsOf r.1 roomId)) := by
  unfold localJoinRoom joinRoomAfterLeave pairingEvsOf
  simp only [h]
  by_cases hh : mhas (if truthy ws0.roomId then leaveRoom s0 sid else (s0, [])).1.rooms roomId
  · simp only [hh, if_true, setWsRoomId_rooms, mlook_mset_self, List.append_assoc]
  · simp only [hh, if_false, setWsRoomId_rooms, mlook_mset_self, List.append_assoc]

theorem jal_fresh {s1 : ServerState} {sid roomId dt : String} {now : Nat}
    {ws1 : WsState} (hc : mlook s1.conns sid = some ws1)
    (hr : mlook s1.rooms roomId = none) :
    joinRoomAfterLeave s1 sid roomId dt now =
      ({ conns := mset s1.conns sid { ws1 with roomId := some roomId },
         rooms := (mset s1.rooms roomId
           { created := now,
             participants := [(sid, { deviceType := dt, joinedAt := now })] }),
         poseLimits := s1.poseLimits },
       if ws1.isOpen then [Ev.send sid (.roomJoined roomId [] now)] else []) := by
  have hh : mhas s1.rooms roomId = false := by simp [mhas, hr]
  unfold joinRoomAfterLeave
  simp only [hh, Bool.false_eq_true, if_false, mlook_mset_self, mset_mset_self,
    setWsRoomId, hc, mset]
  simp [sendEv, connIsOpen, mlook_mset_self, broadcastToRoom, mset]

theorem jal_existing {s1 : ServerState} {sid roomId dt : String} {now : Nat}
    {ws1 : WsState} {room : Room} (hc : mlook s1.conns sid = some ws1)
    (hr : mlook s1.rooms roomId = some room) :
    joinRoomAfterLeave s1 sid roomId dt now =
      ({ conns := mset s1.conns sid { ws1 with roomId := some roomId },
         rooms := (mset s1.rooms roomId
           { created := room.created,
             participants :=
               (mset room.participants sid { deviceType := dt, joinedAt := now }) }),
         poseLimits := s1.poseLimits },
       (if ws1.isOpen then
          [Ev.send sid (.roomJoined roomId
            ((mset room.participants sid { deviceType := dt, joinedAt := now }).filter
              (fun p => decide (p.1 ≠ sid))) room.created)]
        else []) ++
       broadcastToRoom
         { conns := mset s1.conns sid { ws1 with roomId := some roomId },
           rooms := (mset s1.rooms roomId
             { created := room.created,
               participants :=
                 (mset room.participants sid { deviceType := dt, joinedAt := now }) }),
           poseLimits := s1.poseLimits }
         roomId (.participantJoined sid dt now) (some sid)) := by
  have hh : mhas s1.rooms roomId = true := by simp [mhas, hr]
  unfold joinRoomAfterLeave
  simp only [hh, if_true, hr, setWsRoomId, hc, mlook_mset_self]
  simp [sendEv, connIsOpen, mlook_mset_self]

theorem mhas_mset_self {β : Type} (m : List (String × β)) (k : String) (v : β) :
    mhas (mset m k v) k = true := by
  simp [mhas, mlook_mset_self]

/-! ### Invariants of the server state -/

/-- Structural invariant: every room in the directory is non-empty, every
room's participant map has distinct keys, and the room directory itself
has distinct keys. -/
def InvCore (s : ServerState) : Prop :=
  (∀ p ∈ s.rooms, p.2.participants ≠ []) ∧
  (∀ p ∈ s.rooms, keysNodup p.2.participants) ∧
  keysNodup s.rooms

/-- Linkage invariant: whenever a session id appears in a room's
participant map, that session is registered and its `ws.roomId` field
names exactly that room. -/
def memRoomOf (s : ServerState) : Prop :=
  ∀ p ∈ s.rooms, ∀ sid, mhas p.2.participants sid = true →
    ∃ ws, mlook s.conns sid = some ws ∧ ws.roomId = some p.1

/-- The inductive invariant for well-formed runs (collision-free connects
and no joins of the empty room code): the structural invariant, the
linkage invariant, and the absence of the empty-string room — the one
room whose members `leaveRoom`'s falsy guard can never remove. -/
def InvFull (s : ServerState) : Prop :=
  InvCore s ∧ memRoomOf s ∧ mhas s.rooms "" = false

/-- The number of rooms whose participant set contains the session. -/
def roomsContaining (s : ServerState) (sid : String) : Nat :=
  (s.rooms.filter (fun p => mhas p.2.participants sid)).length

theorem invCore_initial : InvCore initialState := by
  refine ⟨?_, ?_, ?_⟩ <;> simp [initialState, keysNodup]

theorem invFull_initial : InvFull initialState := by
  refine ⟨invCore_initial, ?_, rfl⟩
  intro p hp
  simp [initialState] at hp

theorem roomId_none_gone {s : ServerState} {sid : String} {ws : WsState}
    (hm : memRoomOf s) (hc : mlook s.conns sid = some ws) (hr : ws.roomId = none) :
    ∀ p ∈ s.rooms, mhas p.2.participants sid = false := by
  intro p hp
  by_cases hh : mhas p.2.participants sid = true
  · obtain ⟨ws2, hc2, hr2⟩ := hm p hp sid hh
    rw [hc] at hc2
    cases hc2
    rw [hr] at hr2
    cases hr2
  · simpa using hh

theorem room_missing_gone {s : ServerState} {sid : String} {ws : WsState}
    {rid : String} (hm : memRoomOf s) (hc : mlook s.conns sid = some ws)
    (hr : ws.roomId = some rid) (hmiss : mlook s.rooms rid = none) :
    ∀ p ∈ s.rooms, mhas p.2.participants sid = false := by
  intro p hp
  by_cases hh : mhas p.2.participants sid = true
  · obtain ⟨ws2, hc2, hr2⟩ := hm p hp sid hh
    rw [hc] at hc2
    cases hc2
    rw [hr] at hr2
    have hkey : p.1 = rid := by injection hr2 with h3; exact h3.symm
    have : mhas s.rooms rid = true := by
      have : (p.1, p.2) ∈ s.rooms := by simpa using hp
      exact mem_mhas (hkey ▸ this)
    rw [mhas, hmiss] at this
    simp at this
  · simpa using hh

theorem roomId_empty_gone {s : ServerState} {sid : String} {ws : WsState}
    (hm : memRoomOf s) (hno : mhas s.rooms "" = false)
    (hc : mlook s.conns sid = some ws) (hr : ws.roomId = some "") :
    ∀ p ∈ s.rooms, mhas p.2.participants sid = false := by
  intro p hp
  by_cases hh : mhas p.2.participants sid = true
  · obtain ⟨ws2, hc2, hr2⟩ := hm p hp sid hh
    rw [hc] at hc2
    cases hc2
    rw [hr] at hr2
    have hkey : p.1 = "" := by injection hr2 with h3; exact h3.symm
    have hmm : mhas s.rooms "" = true := by
      have hp2 : (p.1, p.2) ∈ s.rooms := by simpa using hp
      exact mem_mhas (hkey ▸ hp2)
    simp [hmm] at hno
  · simpa using hh

theorem not_truthy_gone {s : ServerState} {sid : String} {ws : WsState}
    (hm : memRoomOf s) (hno : mhas s.rooms "" = false)
    (hc : mlook s.conns sid = some ws) (ht : truthy ws.roomId = false) :
    ∀ p ∈ s.rooms, mhas p.2.participants sid = false := by
  cases hr : ws.roomId with
  | none => exact roomId_none_gone hm hc hr
  | some r =>
    by_cases hr0 : r = ""
    · exact roomId_empty_gone hm hno hc (by rw [hr, hr0])
    · exfalso
      rw [hr] at ht
      simp [truthy, hr0] at ht

theorem not_conn_gone {s : ServerState} {sid : String}
    (hm : memRoomOf s) (hc : mlook s.conns sid = none) :
    ∀ p ∈ s.rooms, mhas p.2.participants sid = false := by
  intro p hp
  by_cases hh : mhas p.2.participants sid = true
  · obtain ⟨ws2, hc2, _⟩ := hm p hp sid hh
    rw [hc] at hc2
    cases hc2
  · simpa using hh

theorem leave_invCore {s : ServerState} {sid : String} (h : InvCore s) :
    InvCore (leaveRoom s sid).1 := by
  obtain ⟨hne, hnd, hkd⟩ := h
  cases hc : mlook s.conns sid with
  | none => rw [leaveRoom_not_conn hc]; exact ⟨hne, hnd, hkd⟩
  | some ws =>
    cases hrid : ws.roomId with
    | none => rw [leaveRoom_no_roomId hc hrid]; exact ⟨hne, hnd, hkd⟩
    | some rid =>
      by_cases hr0 : rid = ""
      · rw [leaveRoom_empty_rid hc (hr0 ▸ hrid)]; exact ⟨hne, hnd, hkd⟩
      · cases hroom : mlook s.rooms rid with
        | none => rw [leaveRoom_room_missing hc hrid hroom]; exact ⟨hne, hnd, hkd⟩
        | some room =>
          rw [leaveRoom_eq hc hrid hr0 hroom]
          by_cases he : (mdel room.participants sid).isEmpty
          · simp only [he, if_true]
            refine ⟨?_, ?_, keysNodup_mdel _ hkd⟩
            · intro p hp; exact hne p (mem_mdel hp).1
            · intro p hp; exact hnd p (mem_mdel hp).1
          · simp only [he, if_false]
            refine ⟨?_, ?_, keysNodup_mset _ _ hkd⟩
            · intro p hp
              rcases mem_mset hp with h1 | h1
              · rw [h1]
                intro hcon
                exact he (by simp only [List.isEmpty_iff]; exact hcon)
              · exact hne p h1
            · intro p hp
              rcases mem_mset hp with h1 | h1
              · rw [h1]
                exact keysNodup_mdel _ (hnd (rid, room) (mlook_eq_some_mem hroom))
              · exact hnd p h1

theorem mhas_mdel_imp {β : Type} {m : List (String × β)} {k k' : String}
    (h : mhas (mdel m k) k' = true) : k' ≠ k ∧ mhas m k' = true := by
  obtain ⟨v, hv⟩ := mhas_exists_mem h
  obtain ⟨hm, hne⟩ := mem_mdel hv
  exact ⟨hne, mem_mhas hm⟩

theorem mhas_mset_imp {β : Type} {m : List (String × β)} {k k' : String} {v : β}
    (h : mhas (mset m k v) k' = true) : k' = k ∨ mhas m k' = true := by
  obtain ⟨v2, hv⟩ := mhas_exists_mem h
  rcases mem_mset hv with h1 | h1
  · left; exact congrArg Prod.fst h1
  · right; exact mem_mhas h1

theorem mhas_singleton_imp {β : Type} {k k' : String} {v : β}
    (h : mhas [(k, v)] k' = true) : k' = k := by
  obtain ⟨v2, hv⟩ := mhas_exists_mem h
  simp only [List.mem_singleton, Prod.mk.injEq] at hv
  exact hv.1

theorem leave_conn_present {s : ServerState} {sid : String} {ws : WsState}
    (hc : mlook s.conns sid = some ws) :
    ∃ ws2, mlook (leaveRoom s sid).1.conns sid = some ws2 ∧
      ws2.deviceType = ws.deviceType ∧ ws2.isOpen = ws.isOpen := by
  cases hrid : ws.roomId with
  | none => rw [leaveRoom_no_roomId hc hrid]; exact ⟨ws, hc, rfl, rfl⟩
  | some rid =>
    by_cases hr0 : rid = ""
    · rw [leaveRoom_empty_rid hc (hr0 ▸ hrid)]; exact ⟨ws, hc, rfl, rfl⟩
    · cases hroom : mlook s.rooms rid with
      | none => rw [leaveRoom_room_missing hc hrid hroom]; exact ⟨ws, hc, rfl, rfl⟩
      | some room =>
        rw [leaveRoom_eq hc hrid hr0 hroom]
        exact ⟨{ ws with roomId := none }, mlook_mset_self _ _ _, rfl, rfl⟩

theorem leave_sid_gone {s : ServerState} {sid : String} (h : InvFull s) :
    ∀ p ∈ (leaveRoom s sid).1.rooms, mhas p.2.participants sid = false := by
  obtain ⟨⟨_, _, hkd⟩, hm, hno⟩ := h
  cases hc : mlook s.conns sid with
  | none => rw [leaveRoom_not_conn hc]; exact not_conn_gone hm hc
  | some ws =>
    cases hrid : ws.roomId with
    | none => rw [leaveRoom_no_roomId hc hrid]; exact roomId_none_gone hm hc hrid
    | some rid =>
      by_cases hr0 : rid = ""
      · rw [leaveRoom_empty_rid hc (hr0 ▸ hrid)]
        exact roomId_empty_gone hm hno hc (hr0 ▸ hrid)
      · cases hroom : mlook s.rooms rid with
        | none =>
          rw [leaveRoom_room_missing hc hrid hroom]
          exact room_missing_gone hm hc hrid hroom
        | some room =>
          rw [leaveRoom_eq hc hrid hr0 hroom]
          intro p hp
          by_cases hh : mhas p.2.participants sid = true
          · exfalso
            by_cases he : (mdel room.participants sid).isEmpty
            · simp only [he, if_true] at hp
              obtain ⟨hmem, hne⟩ := mem_mdel hp
              obtain ⟨ws2, hc2, hr2⟩ := hm p hmem sid hh
              rw [hc] at hc2; cases hc2
              rw [hrid] at hr2
              exact hne (by injection hr2 with h3; exact h3.symm)
            · simp only [he, if_false] at hp
              rcases mem_mset_nodup hkd hp with h1 | ⟨hmem, hne⟩
              · rw [h1] at hh
                simp [mhas_mdel_self] at hh
              · obtain ⟨ws2, hc2, hr2⟩ := hm p hmem sid hh
                rw [hc] at hc2; cases hc2
                rw [hrid] at hr2
                exact hne (by injection hr2 with h3; exact h3.symm)
          · simpa using hh

theorem leave_memRoomOf {s : ServerState} {sid : String} (h : InvFull s) :
    memRoomOf (leaveRoom s sid).1 := by
  obtain ⟨⟨_, _, hkd⟩, hm, hno⟩ := h
  cases hc : mlook s.conns sid with
  | none => rw [leaveRoom_not_conn hc]; exact hm
  | some ws =>
    cases hrid : ws.roomId with
    | none => rw [leaveRoom_no_roomId hc hrid]; exact hm
    | some rid =>
      by_cases hr0 : rid = ""
      · rw [leaveRoom_empty_rid hc (hr0 ▸ hrid)]; exact hm
      · cases hroom : mlook s.rooms rid with
        | none => rw [leaveRoom_room_missing hc hrid hroom]; exact hm
        | some room =>
          rw [leaveRoom_eq hc hrid hr0 hroom]
          intro p hp sid2 hh
          by_cases he : (mdel room.participants sid).isEmpty
          · simp only [he, if_true] at hp
            obtain ⟨hmem, hne⟩ := mem_mdel hp
            have hne2 : sid2 ≠ sid := by
              intro heq
              subst heq
              obtain ⟨ws2, hc2, hr2⟩ := hm p hmem sid2 hh
              rw [hc] at hc2; cases hc2
              rw [hrid] at hr2
              exact hne (by injection hr2 with h3; exact h3.symm)
            obtain ⟨ws2, hc2, hr2⟩ := hm p hmem sid2 hh
            exact ⟨ws2, (mlook_mset_ne s.conns _ hne2).trans hc2, hr2⟩
          · simp only [he, if_false] at hp
            rcases mem_mset_nodup hkd hp with h1 | ⟨hmem, hne⟩
            · subst h1
              obtain ⟨hne2, hmm⟩ := mhas_mdel_imp hh
              obtain ⟨ws2, hc2, hr2⟩ := hm (rid, room) (mlook_eq_some_mem hroom) sid2 hmm
              exact ⟨ws2, (mlook_mset_ne s.conns _ hne2).trans hc2, hr2⟩
            · have hne2 : sid2 ≠ sid := by
                intro heq
                subst heq
                obtain ⟨ws2, hc2, hr2⟩ := hm p hmem sid2 hh
                rw [hc] at hc2; cases hc2
                rw [hrid] at hr2
                exact hne (by injection hr2 with h3; exact h3.symm)
              obtain ⟨ws2, hc2, hr2⟩ := hm p hmem sid2 hh
              exact ⟨ws2, (mlook_mset_ne s.conns _ hne2).trans hc2, hr2⟩

theorem jal_invCore {s1 : ServerState} {sid roomId dt : String} {now : Nat}
    {ws1 : WsState} (hc : mlook s1.conns sid = some ws1) (h : InvCore s1) :
    InvCore (joinRoomAfterLeave s1 sid roomId dt now).1 := by
  obtain ⟨hne, hnd, hkd⟩ := h
  cases hr : mlook s1.rooms roomId with
  | none =>
    rw [jal_fresh hc hr]
    refine ⟨?_, ?_, keysNodup_mset _ _ hkd⟩
    · intro p hp
      rcases mem_mset hp with h1 | h1
      · rw [h1]; simp
      · exact hne p h1
    · intro p hp
      rcases mem_mset hp with h1 | h1
      · rw [h1]; simp [keysNodup]
      · exact hnd p h1
  | some room =>
    rw [jal_existing hc hr]
    refine ⟨?_, ?_, keysNodup_mset _ _ hkd⟩
    · intro p hp
      rcases mem_mset hp with h1 | h1
      · rw [h1]
        intro hcon
        exact mset_ne_nil _ _ _ hcon
      · exact hne p h1
    · intro p hp
      rcases mem_mset hp with h1 | h1
      · rw [h1]
        exact keysNodup_mset _ _ (hnd (roomId, room) (mlook_eq_some_mem hr))
      · exact hnd p h1

theorem jal_memRoomOf {s1 : ServerState} {sid roomId dt : String} {now : Nat}
    {ws1 : WsState} (hc : mlook s1.conns sid = some ws1) (h : InvFull s1)
    (hgone : ∀ p ∈ s1.rooms, mhas p.2.participants sid = false) :
    memRoomOf (joinRoomAfterLeave s1 sid roomId dt now).1 := by
  obtain ⟨⟨hne, hnd, hkd⟩, hm, hno⟩ := h
  cases hr : mlook s1.rooms roomId with
  | none =>
    rw [jal_fresh hc hr]
    intro p hp sid2 hh
    rcases mem_mset_nodup hkd hp with h1 | ⟨hmem, hnek⟩
    · subst h1
      have hs : sid2 = sid := mhas_singleton_imp hh
      subst hs
      exact ⟨{ ws1 with roomId := some roomId }, mlook_mset_self _ _ _, rfl⟩
    · have hne2 : sid2 ≠ sid := by
        intro heq; subst heq
        rw [hgone p hmem] at hh
        exact Bool.false_ne_true hh
      obtain ⟨ws2, hc2, hr2⟩ := hm p hmem sid2 hh
      exact ⟨ws2, (mlook_mset_ne s1.conns _ hne2).trans hc2, hr2⟩
  | some room =>
    rw [jal_existing hc hr]
    intro p hp sid2 hh
    rcases mem_mset_nodup hkd hp with h1 | ⟨hmem, hnek⟩
    · subst h1
      by_cases hs : sid2 = sid
      · subst hs
        exact ⟨{ ws1 with roomId := some roomId }, mlook_mset_self _ _ _, rfl⟩
      · rcases mhas_mset_imp hh with h2 | h2
        · exact absurd h2 hs
        · obtain ⟨ws2, hc2, hr2⟩ := hm (roomId, room) (mlook_eq_some_mem hr) sid2 h2
          exact ⟨ws2, (mlook_mset_ne s1.conns _ hs).trans hc2, hr2⟩
    · have hne2 : sid2 ≠ sid := by
        intro heq; subst heq
        rw [hgone p hmem] at hh
        exact Bool.false_ne_true hh
      obtain ⟨ws2, hc2, hr2⟩ := hm p hmem sid2 hh
      exact ⟨ws2, (mlook_mset_ne s1.conns _ hne2).trans hc2, hr2⟩

theorem jal_no_empty_room {s1 : ServerState} {sid roomId dt : String} {now : Nat}
    {ws1 : WsState} (hc : mlook s1.conns sid = some ws1) (hrB : roomId ≠ "")
    (h : mhas s1.rooms "" = false) :
    mhas (joinRoomAfterLeave s1 sid roomId dt now).1.rooms "" = false := by
  have hne : ("" : String) ≠ roomId := fun he => hrB he.symm
  unfold mhas at h ⊢
  cases hr : mlook s1.rooms roomId with
  | none =>
    rw [jal_fresh hc hr]
    dsimp only
    rw [mlook_mset_ne s1.rooms _ hne]
    exact h
  | some room =>
    rw [jal_existing hc hr]
    dsimp only
    rw [mlook_mset_ne s1.rooms _ hne]
    exact h

theorem join_invCore {s : ServerState} {sid roomId : String} {now : Nat}
    (h : InvCore s) : InvCore (joinRoom s sid roomId now).1 := by
  cases hc : mlook s.conns sid with
  | none => rw [joinRoom_not_conn hc]; exact h
  | some ws0 =>
    rw [joinRoom_unfold hc]
    by_cases hj : truthy ws0.roomId
    · simp only [hj, if_true]
      obtain ⟨ws2, hc2, _, _⟩ := leave_conn_present hc
      exact jal_invCore hc2 (leave_invCore h)
    · simp only [hj, Bool.false_eq_true, if_false]
      exact jal_invCore hc h

theorem join_invFull {s : ServerState} {sid roomId : String} {now : Nat}
    (hrB : roomId ≠ "") (h : InvFull s) : InvFull (joinRoom s sid roomId now).1 := by
  cases hc : mlook s.conns sid with
  | none => rw [joinRoom_not_conn hc]; exact h
  | some ws0 =>
    rw [joinRoom_unfold hc]
    by_cases hj : truthy ws0.roomId
    · simp only [hj, if_true]
      obtain ⟨ws2, hc2, _, _⟩ := leave_conn_present hc
      have hI1 : InvFull (leaveRoom s sid).1 :=
        ⟨leave_invCore h.1, leave_memRoomOf h, leave_no_empty_room h.2.2⟩
      exact ⟨jal_invCore hc2 hI1.1, jal_memRoomOf hc2 hI1 (leave_sid_gone h),
        jal_no_empty_room hc2 hrB hI1.2.2⟩
    · have hj2 : truthy ws0.roomId = false := by simpa using hj
      simp only [hj2, Bool.false_eq_true, if_false]
      exact ⟨jal_invCore hc h.1,
        jal_memRoomOf hc h (not_truthy_gone h.2.1 h.2.2 hc hj2),
        jal_no_empty_room hc hrB h.2.2⟩

theorem invCore_of_rooms_eq {s s' : ServerState} (hr : s'.rooms = s.rooms)
    (h : InvCore s) : InvCore s' := by
  obtain ⟨h1, h2, h3⟩ := h
  refine ⟨?_, ?_, ?_⟩
  · intro p hp; exact h1 p (by rw [← hr]; exact hp)
  · intro p hp; exact h2 p (by rw [← hr]; exact hp)
  · rw [hr]; exact h3

theorem memRoomOf_of_eq {s s' : ServerState} (hr : s'.rooms = s.rooms)
    (hcn : s'.conns = s.conns) (h : memRoomOf s) : memRoomOf s' := by
  intro p hp sid hh
  rw [hcn]
  exact h p (by rw [← hr]; exact hp) sid hh

theorem handlePoseData_state (s : ServerState) (sid : String) (m : PoseMsg) (now : Nat) :
    (handlePoseData s sid m now).1.rooms = s.rooms ∧
    (handlePoseData s sid m now).1.conns = s.conns := by
  unfold handlePoseData
  constructor <;> dsimp only <;> (repeat' split) <;> rfl

theorem registerDevice_state (s : ServerState) (sid caps : String) :
    (registerDevice s sid caps).1.rooms = s.rooms := by
  unfold registerDevice
  split <;> rfl

theorem memRoomOf_mset_conns {s : ServerState} {sid : String} {ws ws' : WsState}
    (hc : mlook s.conns sid = some ws) (hrid : ws'.roomId = ws.roomId)
    (h : memRoomOf s) : memRoomOf { s with conns := mset s.conns sid ws' } := by
  intro p hp sid2 hh
  obtain ⟨ws2, hc2, hr2⟩ := h p hp sid2 hh
  by_cases hs : sid2 = sid
  · subst hs
    rw [hc] at hc2
    cases hc2
    exact ⟨ws', mlook_mset_self _ _ _, hrid.trans hr2⟩
  · exact ⟨ws2, (mlook_mset_ne s.conns _ hs).trans hc2, hr2⟩

theorem registerDevice_invFull {s : ServerState} {sid caps : String}
    (h : InvFull s) : InvFull (registerDevice s sid caps).1 := by
  unfold registerDevice
  cases hc : mlook s.conns sid with
  | none => exact h
  | some ws =>
    refine ⟨invCore_of_rooms_eq rfl h.1, ?_, h.2.2⟩
    exact memRoomOf_mset_conns hc rfl h.2.1

theorem close_invCore {s : ServerState} {sid : String} (h : InvCore s) :
    InvCore (closeConn s sid).1 := by
  unfold closeConn
  refine invCore_of_rooms_eq rfl ?_
  cases hc : mlook s.conns sid with
  | none => exact leave_invCore h
  | some ws => exact leave_invCore (invCore_of_rooms_eq rfl h)

theorem close_invFull {s : ServerState} {sid : String} (h : InvFull s) :
    InvFull (closeConn s sid).1 := by
  unfold closeConn
  have step : ∀ s0 : ServerState, InvFull s0 →
      InvFull { leaveRoom s0 sid |>.1 with
        conns := mdel (leaveRoom s0 sid).1.conns sid,
        poseLimits := mdel (leaveRoom s0 sid).1.poseLimits sid } := by
    intro s0 h0
    refine ⟨invCore_of_rooms_eq rfl ⟨(leave_invCore h0.1).1, (leave_invCore h0.1).2.1,
      (leave_invCore h0.1).2.2⟩, ?_, leave_no_empty_room h0.2.2⟩
    intro p hp sid2 hh
    have hg := leave_sid_gone h0 p hp
    have hne2 : sid2 ≠ sid := by
      intro heq; subst heq
      rw [hg] at hh
      exact Bool.false_ne_true hh
    obtain ⟨ws2, hc2, hr2⟩ := leave_memRoomOf h0 p hp sid2 hh
    exact ⟨ws2, (mlook_mdel_ne _ hne2).trans hc2, hr2⟩
  cases hc : mlook s.conns sid with
  | none => exact step s h
  | some ws =>
    refine step _ ⟨invCore_of_rooms_eq rfl h.1, ?_, h.2.2⟩
    exact memRoomOf_mset_conns hc rfl h.2.1

theorem connect_invCore {s : ServerState} {req : Option String}
    {f1 f2 dt : String} {rp : Option String} {now : Nat} (h : InvCore s) :
    InvCore (connect s req f1 f2 dt rp now).state := by
  unfold connect
  cases rp with
  | none => exact invCore_of_rooms_eq rfl h
  | some rid =>
    by_cases hr0 : rid = ""
    · subst hr0
      exact invCore_of_rooms_eq rfl h
    · dsimp only
      rw [if_neg hr0]
      exact join_invCore (invCore_of_rooms_eq rfl h)

theorem connect_invFull {s : ServerState} {req : Option String}
    {f1 f2 dt : String} {rp : Option String} {now : Nat}
    (hwf : mhas s.conns (registerSessionId req f1) = false) (h : InvFull s) :
    InvFull (connect s req f1 f2 dt rp now).state := by
  unfold connect
  have hm1 : memRoomOf { s with conns :=
      (mset s.conns (registerSessionId req f1)
        { deviceType := dt, roomId := rp, isOpen := true, capabilities := none }) } := by
    intro p hp sid2 hh
    obtain ⟨ws2, hc2, hr2⟩ := h.2.1 p hp sid2 hh
    have hne2 : sid2 ≠ registerSessionId req f1 := by
      intro heq; subst heq
      rw [mhas, hc2] at hwf
      simp at hwf
    exact ⟨ws2, (mlook_mset_ne s.conns _ hne2).trans hc2, hr2⟩
  have h1 : InvFull { s with conns :=
      (mset s.conns (registerSessionId req f1)
        { deviceType := dt, roomId := rp, isOpen := true, capabilities := none }) } :=
    ⟨invCore_of_rooms_eq rfl h.1, hm1, h.2.2⟩
  cases rp with
  | none => exact h1
  | some rid =>
    by_cases hr0 : rid = ""
    · subst hr0
      exact h1
    · dsimp only
      rw [if_neg hr0]
      exact join_invFull hr0 h1

theorem runOp_invCore {s : ServerState} (op : Op) (h : InvCore s) :
    InvCore (runOp s op).1 := by
  cases op with
  | connectOp req f1 f2 dt rp now => exact @connect_invCore s req f1 f2 dt rp now h
  | frameOp sid f now =>
    cases f with
    | malformed => exact h
    | wellFormed m =>
      cases m with
      | joinRoomMsg rid => exact join_invCore h
      | leaveRoomMsg => exact leave_invCore h
      | poseDataMsg pm => exact invCore_of_rooms_eq (handlePoseData_state s sid pm now).1 h
      | deviceRegisterMsg caps => exact invCore_of_rooms_eq (registerDevice_state s sid caps) h
      | pingMsg => exact h
      | syncRequestMsg sm => exact h
      | roomListMsg => exact h
      | unknown t => exact h
  | closeOp sid => exact close_invCore h

theorem runOp_invFull {s : ServerState} (op : Op) (hwf : wfOp s op = true)
    (h : InvFull s) : InvFull (runOp s op).1 := by
  cases op with
  | connectOp req f1 f2 dt rp now =>
    have hwf2 : mhas s.conns (registerSessionId req f1) = false := by
      simpa [wfOp] using hwf
    exact @connect_invFull s req f1 f2 dt rp now hwf2 h
  | frameOp sid f now =>
    cases f with
    | malformed => exact h
    | wellFormed m =>
      cases m with
      | joinRoomMsg rid =>
        have hrB : rid ≠ "" := by simpa [wfOp] using hwf
        exact join_invFull hrB h
      | leaveRoomMsg => exact ⟨leave_invCore h.1, leave_memRoomOf h, leave_no_empty_room h.2.2⟩
      | poseDataMsg pm =>
        obtain ⟨hr, hcn⟩ := handlePoseData_state s sid pm now
        refine ⟨invCore_of_rooms_eq hr h.1, memRoomOf_of_eq hr hcn h.2.1, ?_⟩
        show mhas (handlePoseData s sid pm now).1.rooms "" = false
        rw [hr]
        exact h.2.2
      | deviceRegisterMsg caps => exact registerDevice_invFull h
      | pingMsg => exact h
      | syncRequestMsg sm => exact h
      | roomListMsg => exact h
      | unknown t => exact h
  | closeOp sid => exact close_invFull h

theorem invCore_runOpsS (ops : List Op) : ∀ s, InvCore s → InvCore (runOpsS s ops) := by
  induction ops with
  | nil => intro s h; exact h
  | cons op rest ih =>
    intro s h
    exact ih _ (runOp_invCore op h)

theorem invCore_reachable (ops : List Op) : InvCore (runOpsS initialState ops) :=
  invCore_runOpsS ops _ invCore_initial

theorem invFull_runOpsS (ops : List Op) :
    ∀ s, wfRun s ops = true → InvFull s → InvFull (runOpsS s ops) := by
  induction ops with
  | nil => intro s _ h; exact h
  | cons op rest ih =>
    intro s hwf h
    simp only [wfRun, Bool.and_eq_true] at hwf
    exact ih _ hwf.2 (runOp_invFull op hwf.1 h)

theorem invFull_reachable (ops : List Op) (h : wfRun initialState ops = true) :
    InvFull (runOpsS initialState ops) :=
  invFull_runOpsS ops _ h invFull_initial

/-! ### Claim C6: protocol errors are answered with one error envelope -/

/-- C6: a malformed (non-JSON) inbound frame, and a well-formed envelope
with an unrecognized type discriminator, each cause the server to send
exactly one error envelope of the shape `{type: "error", message,
timestamp}` back to the same connection, to make no other state change,
and to leave the connection open: a subsequent valid frame (a ping) is
still processed normally. -/
theorem c6_malformed_and_unknown_frames (s : ServerState) (sid t : String)
    (now now2 now3 : Nat) (hopen : connIsOpen s sid = true) :
    onMessage s sid .malformed now =
      (s, [Ev.send sid (.error "Invalid message format" now)]) ∧
    onMessage s sid (.wellFormed (.unknown t)) now2 =
      (s, [Ev.send sid (.error ("Unknown message type: " ++ t) now2)]) ∧
    onMessage s sid (.wellFormed .pingMsg) now3 = (s, [Ev.send sid (.pong now3)]) := by
  refine ⟨?_, ?_, ?_⟩ <;>
    simp [onMessage, handleMessage, sendErrorEv, sendEv, hopen]

/-- C6 witness: a concrete open connection receiving a malformed frame,
an unknown-type envelope, and then a ping. -/
theorem c6_witness :
    onMessage ⟨[("a", ⟨"mobile", none, true, none⟩)], [], []⟩ "a" .malformed 5 =
      (⟨[("a", ⟨"mobile", none, true, none⟩)], [], []⟩,
       [Ev.send "a" (.error "Invalid message format" 5)]) ∧
    onMessage ⟨[("a", ⟨"mobile", none, true, none⟩)], [], []⟩ "a"
        (.wellFormed (.unknown "zzz")) 6 =
      (⟨[("a", ⟨"mobile", none, true, none⟩)], [], []⟩,
       [Ev.send "a" (.error ("Unknown message type: " ++ "zzz") 6)]) ∧
    onMessage ⟨[("a", ⟨"mobile", none, true, none⟩)], [], []⟩ "a"
        (.wellFormed .pingMsg) 7 =
      (⟨[("a", ⟨"mobile", none, true, none⟩)], [], []⟩, [Ev.send "a" (.pong 7)]) :=
  c6_malformed_and_unknown_frames _ "a" "zzz" 5 6 7 (by decide)

/-! ### Claim C8: sync_request forwarding -/

/-- C8 counterexample: the claim fails for a `sync_request` whose
`targetSession` field is present but holds the empty string.  That id is
not registered and the sender's connection is open, so the claim as
stated demands a "Target session not found" error envelope back to the
sender — yet the truthy guard `if (message.targetSession)` is false for
"" and the handler emits nothing at all. -/
theorem c8_counterexample :
    handleSyncRequest ⟨[("a", ⟨"mobile", none, true, none⟩)], [], []⟩
      "a" ⟨some "", "p"⟩ 9 = [] ∧
    mlook ([("a", (⟨"mobile", none, true, none⟩ : WsState))]) "" = none ∧
    connIsOpen ⟨[("a", ⟨"mobile", none, true, none⟩)], [], []⟩ "a" = true := by
  decide

/-- C8 amended: a `sync_request` naming a non-empty target session is
forwarded verbatim (with the sender's id attached as `sourceSession`)
when the target is registered and open, and otherwise answered with an
error envelope to the sender.  A `sync_request` whose `targetSession`
field is absent or the empty string is silently ignored (see the
counterexample). -/
theorem c8_sync_request_forward (s : ServerState) (sid tgt : String) (m : SyncMsg)
    (now : Nat) (hm : m.targetSession = some tgt) (htgt : tgt ≠ "") :
    handleSyncRequest s sid m now =
      (if connIsOpen s tgt then [Ev.send tgt (.syncForward m sid)]
       else sendEv s sid (.error "Target session not found" now)) := by
  unfold handleSyncRequest
  rw [hm]
  cases hc : mlook s.conns tgt with
  | none =>
    have hop : connIsOpen s tgt = false := by simp [connIsOpen, hc]
    simp [htgt, hc, hop, sendErrorEv]
  | some c =>
    by_cases ho : c.isOpen
    · have hop : connIsOpen s tgt = true := by simp [connIsOpen, hc, ho]
      simp [htgt, hc, ho, hop, sendEv]
    · have hop : connIsOpen s tgt = false := by
        simp [connIsOpen, hc]
        simpa using ho
      simp [htgt, hc, ho, hop, sendErrorEv]

/-- C8 witness: forwarding to a live open target carries the original
message plus the sender id; the same request aimed at an unregistered
target produces an error envelope to the sender. -/
theorem c8_witness :
    handleSyncRequest ⟨[("t", ⟨"vr", none, true, none⟩), ("a", ⟨"mobile", none, true, none⟩)], [], []⟩
      "a" ⟨some "t", "p"⟩ 9 = [Ev.send "t" (.syncForward ⟨some "t", "p"⟩ "a")] :=
  (c8_sync_request_forward _ "a" "t" ⟨some "t", "p"⟩ 9 rfl (by decide)).trans (by decide)

/-! ### Claim C7: session-id assignment at registration -/

/-- C7 counterexample: the server does not check a supplied session id
for collisions.  A first connection supplying id "a" is registered under
"a" and stays registered; a second connection supplying the same id "a"
is again assigned "a" (rather than a generated fresh id such as "f2"),
so two simultaneously-registered sessions share one id. -/
theorem c7_counterexample :
    (connect initialState (some "a") "f1" "g1" "mobile" none 0).sid = "a" ∧
    mhas (connect initialState (some "a") "f1" "g1" "mobile" none 0).state.conns "a"
      = true ∧
    (connect (connect initialState (some "a") "f1" "g1" "mobile" none 0).state
      (some "a") "f2" "g2" "vr" none 1).sid = "a" := by
  decide

/-- C7 amended: registration generates a fresh id only when the client
supplies none (or an empty string); any other supplied id is used as-is,
with no collision check — a colliding id silently overwrites the existing
registry entry, so two simultaneously-connected sessions can share an id. -/
theorem c7_amended_registration (s : ServerState) (r f1 f2 dt : String) (now : Nat)
    (hr : r ≠ "") :
    (connect s (some r) f1 f2 dt none now).sid = r ∧
    (connect s none f1 f2 dt none now).sid = f1 ∧
    (connect s (some "") f1 f2 dt none now).sid = f1 ∧
    mlook (connect s (some r) f1 f2 dt none now).state.conns r =
      some { deviceType := dt, roomId := none, isOpen := true, capabilities := none } := by
  refine ⟨?_, ?_, ?_, ?_⟩ <;>
    simp [connect, registerSessionId, hr, mlook_mset_self]

/-- C7 amended witness at a concrete supplied id. -/
theorem c7_amended_witness :
    (connect initialState (some "a") "f" "g" "vr" none 3).sid = "a" ∧
    (connect initialState none "f" "g" "vr" none 3).sid = "f" ∧
    (connect initialState (some "") "f" "g" "vr" none 3).sid = "f" ∧
    mlook (connect initialState (some "a") "f" "g" "vr" none 3).state.conns "a" =
      some { deviceType := "vr", roomId := none, isOpen := true, capabilities := none } :=
  c7_amended_registration initialState "a" "f" "g" "vr" 3 (by decide)

/-! ### Peer-side reconnection controller (WebSocketManager.js) -/

/-- The fields of `WebSocketManager` that the reconnection controller
reads and writes: `isConnected`, `reconnectAttempts`, and the text last
passed to `updateConnectionStatus`. -/
structure WSMState where
  isConnected : Bool
  reconnectAttempts : Nat
  status : String
deriving DecidableEq, Repr

/-- `this.maxReconnectAttempts = 5`. -/
def maxReconnectAttempts : Nat := 5

/-- `this.reconnectDelay = 1000`. -/
def reconnectDelay : Nat := 1000

/-- The outcome of one `handleDisconnection()` call: either a reconnect
attempt scheduled after `delayMs` milliseconds whose timer callback
leaves the manager in `afterFire` just before calling `connect()`, or the
terminal failure state. -/
inductive DiscResult where
  | retry (delayMs : Nat) (afterFire : WSMState)
  | failed (s : WSMState)
deriving DecidableEq, Repr

/-- `handleDisconnection()` of WebSocketManager.js: below the attempt cap
it schedules a retry after `reconnectDelay * 2 ^ reconnectAttempts`
milliseconds, whose callback increments the counter and updates the
status; at the cap it surfaces the terminal "Connection Failed" status. -/
def handleDisconnection (s : WSMState) : DiscResult :=
  let s0 : WSMState := { s with isConnected := false, status := "Disconnected" }
  if s0.reconnectAttempts < maxReconnectAttempts then
    .retry (reconnectDelay * 2 ^ s0.reconnectAttempts)
      { s0 with reconnectAttempts := s0.reconnectAttempts + 1,
                status := "Reconnecting (" ++ toString (s0.reconnectAttempts + 1) ++
                  "/" ++ toString maxReconnectAttempts ++ ")" }
  else
    .failed { s0 with status := "Connection Failed" }

/-- The `ws.onopen` handler: marks the manager connected and resets the
attempt counter to zero. -/
def onOpen (s : WSMState) : WSMState :=
  { s with isConnected := true, reconnectAttempts := 0, status := "Connected" }

/-- A freshly-constructed manager (`reconnectAttempts = 0`). -/
def initWSM : WSMState := { isConnected := false, reconnectAttempts := 0, status := "" }

/-- The manager state after `n` consecutive failed reconnect cycles. -/
def afterFailures : WSMState → Nat → WSMState
  | s, 0 => s
  | s, n + 1 =>
    match handleDisconnection s with
    | .retry _ s2 => afterFailures s2 n
    | .failed sf => sf

/-- The scheduled delays of `n` consecutive failed reconnect cycles. -/
def failureDelays : WSMState → Nat → List Nat
  | _, 0 => []
  | s, n + 1 =>
    match handleDisconnection s with
    | .retry d s2 => d :: failureDelays s2 n
    | .failed _ => []

/-- Whether the next disconnection is terminal with the "Connection
Failed" status rather than another retry. -/
def isTerminalFailure (s : WSMState) : Bool :=
  match handleDisconnection s with
  | .failed sf => sf.status == "Connection Failed"
  | .retry _ _ => false

theorem handleDisconnection_lt {s : WSMState}
    (h : s.reconnectAttempts < maxReconnectAttempts) :
    handleDisconnection s =
      .retry (reconnectDelay * 2 ^ s.reconnectAttempts)
        ⟨false, s.reconnectAttempts + 1,
         "Reconnecting (" ++ toString (s.reconnectAttempts + 1) ++ "/" ++
           toString maxReconnectAttempts ++ ")"⟩ := by
  unfold handleDisconnection
  simp [h]

/-! ### Claim C9: exponential backoff with capped attempts -/

/-- C9: after an unexpected close, the first retry is scheduled after the
base delay, the delay doubles on each consecutive failure, the sequence
of delays from a fresh manager is 1000, 2000, 4000, 8000, 16000 ms (five
attempts), the disconnection after the fifth failure is terminal with
status "Connection Failed" instead of another retry, and a successful
open resets the attempt counter to zero. -/
theorem c9_reconnect_backoff (s0 s1 s2 : WSMState) (d1 d2 : Nat)
    (h0 : s0.reconnectAttempts = 0)
    (h1 : handleDisconnection s0 = .retry d1 s1)
    (h2 : handleDisconnection s1 = .retry d2 s2) :
    d1 = reconnectDelay ∧ d2 = 2 * d1 ∧
    failureDelays initWSM 5 = [1000, 2000, 4000, 8000, 16000] ∧
    isTerminalFailure (afterFailures initWSM 5) = true ∧
    (onOpen s2).reconnectAttempts = 0 := by
  have e1 := @handleDisconnection_lt s0 (by rw [h0]; decide)
  rw [e1, h0] at h1
  have hd1 : d1 = reconnectDelay * 2 ^ 0 := by
    injection h1 with ha hb; exact ha.symm
  have hs1 : s1.reconnectAttempts = 1 := by
    injection h1 with ha hb; rw [← hb]
  have e2 := @handleDisconnection_lt s1 (by rw [hs1]; decide)
  rw [e2, hs1] at h2
  have hd2 : d2 = reconnectDelay * 2 ^ 1 := by
    injection h2 with ha hb; exact ha.symm
  refine ⟨by simpa using hd1, ?_, by decide, by decide, rfl⟩
  rw [hd1, hd2]
  ring

/-- C9 witness: the backoff theorem applied to a fresh manager and its
first two concrete retry transitions. -/
theorem c9_witness :
    (1000 : Nat) = reconnectDelay ∧ (2000 : Nat) = 2 * 1000 ∧
    failureDelays initWSM 5 = [1000, 2000, 4000, 8000, 16000] ∧
    isTerminalFailure (afterFailures initWSM 5) = true ∧
    (onOpen ⟨false, 2, "Reconnecting (2/5)"⟩).reconnectAttempts = 0 :=
  c9_reconnect_backoff initWSM ⟨false, 1, "Reconnecting (1/5)"⟩
    ⟨false, 2, "Reconnecting (2/5)"⟩ 1000 2000 rfl (by decide) (by decide)

/-! ### Claim C10: re-joining the same room recreates it -/

/-- C10 counterexample: the claim fails for the (reachable) empty-string
room code.  A session that is the sole participant of room "" re-joins
"": the truthy guard `if (ws.roomId)` is false for "", so the leave-first
step is skipped and the room is neither deleted nor recreated — its
creation timestamp 5 is preserved and reported unchanged in `room_joined`
(not the join time 9), and the participant entry is merely overwritten in
place. -/
theorem c10_counterexample :
    mlook (joinRoom
      ⟨[("a", ⟨"mobile", some "", true, none⟩)],
       [("", ⟨5, [("a", ⟨"mobile", 5⟩)]⟩)], []⟩ "a" "" 9).1.rooms "" =
      some { created := 5, participants := [("a", ⟨"mobile", 9⟩)] } ∧
    (joinRoom
      ⟨[("a", ⟨"mobile", some "", true, none⟩)],
       [("", ⟨5, [("a", ⟨"mobile", 5⟩)]⟩)], []⟩ "a" "" 9).2 =
      [Ev.send "a" (.roomJoined "" [] 5)] ∧
    (5 : Nat) ≠ 9 := by
  decide

/-- C10 amended: handling `join_room` for a non-empty code the session is
already the sole participant of re-runs the leave-then-join path: the
room is deleted (last leave) and recreated fresh, so afterwards it holds
exactly the joiner with a new `joinedAt`, its creation timestamp is the
join time `now` (reported as `roomCreated` in the `room_joined` reply),
and — since the clock advanced — the reported creation timestamp differs
from the old one.  The join is not a no-op.  For the empty-string room
code the falsy guard skips the leave and the room is updated in place,
keeping its old creation timestamp (see the counterexample). -/
theorem c10_rejoin_recreates (s : ServerState) (sid rid : String) (ws : WsState)
    (room : Room) (pi : PInfo) (now : Nat)
    (hc : mlook s.conns sid = some ws) (hrid : ws.roomId = some rid)
    (hr0 : rid ≠ "") (hroom : mlook s.rooms rid = some room)
    (hsole : room.participants = [(sid, pi)]) (hnew : room.created ≠ now) :
    mlook (joinRoom s sid rid now).1.rooms rid =
      some { created := now,
             participants := [(sid, { deviceType := ws.deviceType, joinedAt := now })] } ∧
    (joinRoom s sid rid now).2 =
      (if ws.isOpen then [Ev.send sid (.roomJoined rid [] now)] else []) ∧
    (mlook (joinRoom s sid rid now).1.rooms rid).map Room.created ≠
      (mlook s.rooms rid).map Room.created := by
  have hempty : mdel room.participants sid = [] := by
    rw [hsole]; simp [mdel]
  have hL := leaveRoom_eq hc hrid hr0 hroom
  rw [hempty] at hL
  simp only [List.isEmpty_nil, if_true] at hL
  have hbe : broadcastToRoom
      { s with rooms := (mset s.rooms rid { room with participants := ([] : List (String × PInfo)) }) }
      rid (.participantLeft sid ws.deviceType) none = [] := by
    unfold broadcastToRoom
    rw [show mlook ({ s with rooms := (mset s.rooms rid { room with participants := ([] : List (String × PInfo)) }) } : ServerState).rooms rid = some { room with participants := ([] : List (String × PInfo)) } from mlook_mset_self _ _ _]
    simp
  rw [hbe] at hL
  have hJ := @joinRoom_unfold s sid rid now ws hc
  rw [hrid] at hJ
  have htr : truthy (some rid) = true := by simp [truthy, hr0]
  simp only [htr, if_true] at hJ
  rw [hL] at hJ
  have hc1 : mlook (mset s.conns sid { ws with roomId := none }) sid =
      some { ws with roomId := none } := mlook_mset_self _ _ _
  have hr1 : mlook (mdel s.rooms rid) rid = none := mlook_mdel_self _ _
  have hjal := @jal_fresh
    ⟨mset s.conns sid { ws with roomId := none }, mdel s.rooms rid, s.poseLimits⟩
    sid rid ws.deviceType now { ws with roomId := none } hc1 hr1
  rw [hjal] at hJ
  rw [hJ]
  refine ⟨mlook_mset_self _ _ _, by simp, ?_⟩
  rw [mlook_mset_self, hroom]
  intro hh
  have h2 : now = room.created := by simpa using hh
  exact hnew h2.symm

/-- C10 witness: a concrete sole participant of room "R" re-joining "R"
at a later time. -/
theorem c10_witness :
    mlook (joinRoom
      ⟨[("a", ⟨"mobile", some "R", true, none⟩)],
       [("R", ⟨5, [("a", ⟨"mobile", 5⟩)]⟩)], []⟩ "a" "R" 9).1.rooms "R" =
      some { created := 9, participants := [("a", ⟨"mobile", 9⟩)] } ∧
    (joinRoom
      ⟨[("a", ⟨"mobile", some "R", true, none⟩)],
       [("R", ⟨5, [("a", ⟨"mobile", 5⟩)]⟩)], []⟩ "a" "R" 9).2 =
      (if true then [Ev.send "a" (.roomJoined "R" [] 9)] else []) ∧
    (mlook (joinRoom
      ⟨[("a", ⟨"mobile", some "R", true, none⟩)],
       [("R", ⟨5, [("a", ⟨"mobile", 5⟩)]⟩)], []⟩ "a" "R" 9).1.rooms "R").map Room.created ≠
      (mlook ([("R", (⟨5, [("a", ⟨"mobile", 5⟩)]⟩ : Room))]) "R").map Room.created :=
  c10_rejoin_recreates
    ⟨[("a", ⟨"mobile", some "R", true, none⟩)],
     [("R", ⟨5, [("a", ⟨"mobile", 5⟩)]⟩)], []⟩
    "a" "R" ⟨"mobile", some "R", true, none⟩ ⟨5, [("a", ⟨"mobile", 5⟩)]⟩ ⟨"mobile", 5⟩ 9
    rfl rfl (by decide) rfl rfl (by decide)

/-! ### Claim C5: broadcast semantics -/

/-- Whether a broadcast to room `rid` excluding `excl` reaches session
`sid2`: the room must exist, `sid2` must be one of its participants with
an open connection, and `sid2` must not be the excluded session. -/
def recipCondB (s : ServerState) (rid sid2 : String) (excl : Option String) : Bool :=
  match mlook s.rooms rid with
  | none => false
  | some room =>
    mhas room.participants sid2 && connIsOpen s sid2 && decide (some sid2 ≠ excl)

theorem broadcast_any_recip (s : ServerState) (rid : String) (env : Envelope)
    (excl : Option String) (sid2 : String) :
    (broadcastToRoom s rid env excl).any (fun e => recipOf e == sid2) =
      recipCondB s rid sid2 excl := by
  unfold broadcastToRoom recipCondB
  cases hrm : mlook s.rooms rid with
  | none => simp
  | some room =>
    rw [Bool.eq_iff_iff]
    simp only [List.any_eq_true, List.mem_map, List.mem_filter, Bool.and_eq_true,
      decide_eq_true_eq, beq_iff_eq]
    constructor
    · rintro ⟨e, ⟨p, ⟨hp, hne, hopen⟩, rfl⟩, hrec⟩
      simp only [recipOf] at hrec
      have hmem : (sid2, p.2) ∈ room.participants := by rw [← hrec]; simpa using hp
      exact ⟨⟨mem_mhas hmem, hrec ▸ hopen⟩, hrec ▸ hne⟩
    · rintro ⟨⟨hmem, hopen⟩, hne⟩
      obtain ⟨v, hv⟩ := mhas_exists_mem hmem
      exact ⟨Ev.bcast sid2 env, ⟨(sid2, v), ⟨hv, hne, hopen⟩, rfl⟩, by simp [recipOf]⟩

theorem broadcast_countP_le (s : ServerState) (rid : String) (env : Envelope)
    (excl : Option String) (sid2 : String) (h : InvCore s) :
    (broadcastToRoom s rid env excl).countP (fun e => recipOf e == sid2) ≤ 1 := by
  unfold broadcastToRoom
  cases hrm : mlook s.rooms rid with
  | none => simp
  | some room =>
    rw [List.countP_map, List.countP_filter]
    have hnd : keysNodup room.participants := h.2.1 (rid, room) (mlook_eq_some_mem hrm)
    have hmono : room.participants.countP
        (fun a => ((fun e => recipOf e == sid2) ∘ fun p => Ev.bcast p.1 env) a &&
          (decide (some a.1 ≠ excl) && connIsOpen s a.1)) ≤
        room.participants.countP (fun a => a.1 == sid2) := by
      refine List.countP_mono_left ?_
      intro a _ ha
      simp only [Function.comp, recipOf, Bool.and_eq_true, beq_iff_eq] at ha ⊢
      exact ha.1
    refine le_trans hmono ?_
    rw [List.countP_eq_length_filter]
    refine @length_filter_le_one PInfo room.participants sid2 (fun a => a.1 == sid2) hnd ?_
    intro p _ hp
    simpa using hp

theorem broadcast_all_env (s : ServerState) (rid : String) (env : Envelope)
    (excl : Option String) :
    (broadcastToRoom s rid env excl).all
      (fun e => envOf e == env && payloadOf e == serialize env) = true := by
  unfold broadcastToRoom
  cases hrm : mlook s.rooms rid with
  | none => simp
  | some room =>
    simp only [List.all_eq_true, List.mem_map, List.mem_filter]
    rintro e ⟨p, hp, rfl⟩
    simp [envOf, payloadOf]

theorem broadcast_all_not_excluded (s : ServerState) (rid : String) (env : Envelope)
    (excl : Option String) :
    (broadcastToRoom s rid env excl).all
      (fun e => !(excl == some (recipOf e))) = true := by
  unfold broadcastToRoom
  cases hrm : mlook s.rooms rid with
  | none => simp
  | some room =>
    simp only [List.all_eq_true, List.mem_map, List.mem_filter, Bool.and_eq_true,
      decide_eq_true_eq]
    rintro e ⟨p, ⟨hp, hne, hopen⟩, rfl⟩
    simp only [recipOf]
    cases he : excl == some p.1 with
    | false => simp
    | true => exact absurd (eq_of_beq he).symm hne

/-- C5: for every state reached by a well-formed run — no connect reuses
the id of a still-registered session and no join names the empty room
code, the discipline under which each participant entry's session-id key
resolves in the registry to the very socket the source stores in that
entry, so the model's openness check coincides with the source's
`participant.ws.readyState` test — `broadcastToRoom` delivers to a
session exactly when that session is a participant of the named room with
an open connection and is not the excluded session; each session receives
at most one delivery; every delivery carries the one envelope and its one
serialized string; and the excluded session never receives a delivery.
Participants whose connections are not open are skipped with no event of
any kind (they simply satisfy no delivery predicate). -/
theorem c5_broadcast_contract (ops : List Op) (rid : String) (env : Envelope)
    (excl : Option String) (sid2 : String)
    (hwf : wfRun initialState ops = true) :
    (broadcastToRoom (runOpsS initialState ops) rid env excl).any
        (fun e => recipOf e == sid2) =
      recipCondB (runOpsS initialState ops) rid sid2 excl ∧
    (broadcastToRoom (runOpsS initialState ops) rid env excl).countP
        (fun e => recipOf e == sid2) ≤ 1 ∧
    (broadcastToRoom (runOpsS initialState ops) rid env excl).all
        (fun e => envOf e == env && payloadOf e == serialize env) = true ∧
    (broadcastToRoom (runOpsS initialState ops) rid env excl).all
        (fun e => !(excl == some (recipOf e))) = true :=
  ⟨broadcast_any_recip _ _ _ _ _,
   broadcast_countP_le _ _ _ _ _ (invCore_reachable ops),
   broadcast_all_env _ _ _ _,
   broadcast_all_not_excluded _ _ _ _⟩

/-- C5 witness: the broadcast contract at the state of a concrete
well-formed run (sessions "a" and "b" auto-joined to room "R"), for a
broadcast excluding "a" inspected at recipient "b". -/
theorem c5_witness :
    (broadcastToRoom
        (runOpsS initialState
          [.connectOp (some "a") "f1" "g1" "mobile" (some "R") 0,
           .connectOp (some "b") "f2" "g2" "vr" (some "R") 1]) "R"
        (.pong 7) (some "a")).any (fun e => recipOf e == "b") =
      recipCondB
        (runOpsS initialState
          [.connectOp (some "a") "f1" "g1" "mobile" (some "R") 0,
           .connectOp (some "b") "f2" "g2" "vr" (some "R") 1]) "R" "b" (some "a") ∧
    (broadcastToRoom
        (runOpsS initialState
          [.connectOp (some "a") "f1" "g1" "mobile" (some "R") 0,
           .connectOp (some "b") "f2" "g2" "vr" (some "R") 1]) "R"
        (.pong 7) (some "a")).countP (fun e => recipOf e == "b") ≤ 1 ∧
    (broadcastToRoom
        (runOpsS initialState
          [.connectOp (some "a") "f1" "g1" "mobile" (some "R") 0,
           .connectOp (some "b") "f2" "g2" "vr" (some "R") 1]) "R"
        (.pong 7) (some "a")).all
        (fun e => envOf e == Envelope.pong 7 &&
          payloadOf e == serialize (Envelope.pong 7)) = true ∧
    (broadcastToRoom
        (runOpsS initialState
          [.connectOp (some "a") "f1" "g1" "mobile" (some "R") 0,
           .connectOp (some "b") "f2" "g2" "vr" (some "R") 1]) "R"
        (.pong 7) (some "a")).all
        (fun e => !(some "a" == some (recipOf e))) = true :=
  c5_broadcast_contract
    [.connectOp (some "a") "f1" "g1" "mobile" (some "R") 0,
     .connectOp (some "b") "f2" "g2" "vr" (some "R") 1]
    "R" (.pong 7) (some "a") "b" (by decide)

/-! ### Claim C1: a room exists iff its participant set is non-empty -/

/-- C1 checker: every room present in the directory has a non-empty
participant set. -/
def roomsNonemptyB (s : ServerState) : Bool :=
  s.rooms.all (fun p => !(p.2.participants.isEmpty))

/-- C1 checker: a join by a registered session on an unseen room code
creates the room with the joiner in its participant set. -/
def joinUnseenCreatesB (s : ServerState) (sid rid : String) (now : Nat) : Bool :=
  if mhas s.conns sid && !(mhas s.rooms rid) then
    match mlook (joinRoom s sid rid now).1.rooms rid with
    | some r => mhas r.participants sid
    | none => false
  else true

/-- C1 checker: when the session is the sole participant of its current
room, its leave either is a complete no-op (the early return the source
takes exactly when the room code is falsy, i.e. the empty string — then
no participant is removed and the room is untouched) or it removes the
last participant and then must delete the room in the same step.  In no
case does the leave strand a present-but-emptied room. -/
def lastLeaveDeletesB (s : ServerState) (sid : String) : Bool :=
  match mlook s.conns sid with
  | none => true
  | some ws =>
    match ws.roomId with
    | none => true
    | some rid =>
      match mlook s.rooms rid with
      | none => true
      | some room =>
        if mhas room.participants sid && (mdel room.participants sid).isEmpty then
          if (leaveRoom s sid).1 = s then true
          else !(mhas (leaveRoom s sid).1.rooms rid)
        else true

theorem joinUnseenCreates_all (s : ServerState) (sid rid : String) (now : Nat) :
    joinUnseenCreatesB s sid rid now = true := by
  unfold joinUnseenCreatesB
  by_cases hg : (mhas s.conns sid && !(mhas s.rooms rid)) = true
  swap
  · rw [if_neg hg]
  · rw [if_pos hg]
    obtain ⟨hcs, hrs⟩ : mhas s.conns sid = true ∧ (!(mhas s.rooms rid)) = true := by
      simpa using hg
    have hrs2 : mlook s.rooms rid = none := mhas_false_mlook (by simpa using hrs)
    obtain ⟨ws0, hws⟩ : ∃ ws0, mlook s.conns sid = some ws0 := by
      cases hx : mlook s.conns sid with
      | none => rw [mhas, hx] at hcs; simp at hcs
      | some w => exact ⟨w, rfl⟩
    rw [@joinRoom_unfold s sid rid now ws0 hws]
    by_cases hj : truthy ws0.roomId
    · simp only [hj, if_true]
      obtain ⟨ws2, hc2, _, _⟩ := leave_conn_present hws
      have hr1 := @leave_rooms_missing s sid rid hrs2
      rw [jal_fresh hc2 hr1]
      simp [mlook_mset_self, mhas, mlook]
    · simp only [hj, Bool.false_eq_true, if_false]
      rw [jal_fresh hws hrs2]
      simp [mlook_mset_self, mhas, mlook]

theorem lastLeaveDeletes_all (s : ServerState) (sid : String) :
    lastLeaveDeletesB s sid = true := by
  unfold lastLeaveDeletesB
  cases hc : mlook s.conns sid with
  | none => rfl
  | some ws =>
    obtain ⟨dt0, rid0, op0, caps0⟩ := ws
    cases rid0 with
    | none => rfl
    | some rid =>
      cases hroom : mlook s.rooms rid with
      | none => simp only [hroom]
      | some room =>
        by_cases hguard : (mhas room.participants sid &&
            (mdel room.participants sid).isEmpty) = true
        swap
        · simp only [hroom, if_neg hguard]
        · obtain ⟨hmem, hemp⟩ : mhas room.participants sid = true ∧
              (mdel room.participants sid).isEmpty = true := by simpa using hguard
          simp only [hroom, if_pos hguard]
          by_cases hps : (leaveRoom s sid).1 = s
          · rw [if_pos hps]
          · rw [if_neg hps]
            by_cases hr0 : rid = ""
            · exfalso
              have hL : leaveRoom s sid = (s, []) :=
                leaveRoom_empty_rid hc (show (⟨dt0, some rid, op0, caps0⟩ : WsState).roomId
                  = some "" by rw [hr0])
              rw [hL] at hps
              exact hps rfl
            · rw [leaveRoom_eq hc rfl hr0 hroom]
              simp only [hemp, if_true]
              simp [mhas, mlook_mdel_self]

/-- C1: for every sequence of connect, message and close operations from
the empty initial state, a room exists in the directory only with a
non-empty participant set; a join by a registered session on an unseen
room code creates the room with the joiner in it; and a leave that
removes the last participant of a room deletes the room in the same
step — a sole participant's leave either deletes the room or (exactly
when the source's falsy-roomId early return fires, for the empty room
code) removes nothing and is a complete no-op, so no emptied room is
ever left behind. -/
theorem c1_room_exists_iff_nonempty (ops : List Op) (sid rid : String) (now : Nat) :
    roomsNonemptyB (runOpsS initialState ops) = true ∧
    joinUnseenCreatesB (runOpsS initialState ops) sid rid now = true ∧
    lastLeaveDeletesB (runOpsS initialState ops) sid = true := by
  refine ⟨?_, joinUnseenCreates_all _ _ _ _, lastLeaveDeletes_all _ _⟩
  have h := (invCore_reachable ops).1
  rw [roomsNonemptyB, List.all_eq_true]
  intro p hp
  have h2 := h p hp
  cases hl : p.2.participants with
  | nil => exact absurd hl h2
  | cons a t => simp [hl]

/-! ### Claim C4: a session is in at most one room -/

/-- C4 checker: after handling a join of room `roomB`, the session is a
participant of `roomB` (when registered) and of no other room. -/
def joinMembershipOnlyB (s : ServerState) (sid roomB : String) (now : Nat) : Bool :=
  (if mhas s.conns sid then
     match mlook (joinRoom s sid roomB now).1.rooms roomB with
     | some r => mhas r.participants sid
     | none => false
   else true) &&
  (joinRoom s sid roomB now).1.rooms.all
    (fun p => p.1 == roomB || !(mhas p.2.participants sid))

theorem jal_mem_props {s1 : ServerState} {sid roomB dt : String} {now : Nat}
    {ws1 : WsState} (hc : mlook s1.conns sid = some ws1) (h : InvFull s1)
    (hgone : ∀ p ∈ s1.rooms, mhas p.2.participants sid = false) :
    (∃ r, mlook (joinRoomAfterLeave s1 sid roomB dt now).1.rooms roomB = some r ∧
      mhas r.participants sid = true) ∧
    ∀ p ∈ (joinRoomAfterLeave s1 sid roomB dt now).1.rooms,
      p.1 ≠ roomB → mhas p.2.participants sid = false := by
  cases hr : mlook s1.rooms roomB with
  | none =>
    rw [jal_fresh hc hr]
    constructor
    · exact ⟨_, mlook_mset_self _ _ _, by simp [mhas, mlook]⟩
    · intro p hp hne
      rcases mem_mset_nodup h.1.2.2 hp with h1 | ⟨hmem, hnk⟩
      · exact absurd (congrArg Prod.fst h1) hne
      · exact hgone p hmem
  | some room =>
    rw [jal_existing hc hr]
    constructor
    · exact ⟨_, mlook_mset_self _ _ _, mhas_mset_self _ _ _⟩
    · intro p hp hne
      rcases mem_mset_nodup h.1.2.2 hp with h1 | ⟨hmem, hnk⟩
      · exact absurd (congrArg Prod.fst h1) hne
      · exact hgone p hmem

theorem join_mem_props {s : ServerState} {sid roomB : String} {now : Nat}
    {ws0 : WsState} (h : InvFull s) (hc : mlook s.conns sid = some ws0) :
    (∃ r, mlook (joinRoom s sid roomB now).1.rooms roomB = some r ∧
      mhas r.participants sid = true) ∧
    ∀ p ∈ (joinRoom s sid roomB now).1.rooms,
      p.1 ≠ roomB → mhas p.2.participants sid = false := by
  rw [@joinRoom_unfold s sid roomB now ws0 hc]
  by_cases hj : truthy ws0.roomId
  · simp only [hj, if_true]
    obtain ⟨ws2, hc2, _, _⟩ := leave_conn_present hc
    have hI1 : InvFull (leaveRoom s sid).1 :=
      ⟨leave_invCore h.1, leave_memRoomOf h, leave_no_empty_room h.2.2⟩
    exact jal_mem_props hc2 hI1 (leave_sid_gone h)
  · have hj2 : truthy ws0.roomId = false := by simpa using hj
    simp only [hj2, Bool.false_eq_true, if_false]
    exact jal_mem_props hc h (not_truthy_gone h.2.1 h.2.2 hc hj2)

theorem roomsContaining_le_one {s : ServerState} (h : InvFull s) (sid : String) :
    roomsContaining s sid ≤ 1 := by
  unfold roomsContaining
  cases hc : mlook s.conns sid with
  | none =>
    have he : s.rooms.filter (fun p => mhas p.2.participants sid) = [] := by
      rw [List.filter_eq_nil_iff]
      intro p hp
      simp [not_conn_gone h.2.1 hc p hp]
    rw [he]
    simp
  | some ws =>
    cases hrid : ws.roomId with
    | none =>
      have he : s.rooms.filter (fun p => mhas p.2.participants sid) = [] := by
        rw [List.filter_eq_nil_iff]
        intro p hp
        simp [roomId_none_gone h.2.1 hc hrid p hp]
      rw [he]
      simp
    | some rid =>
      refine @length_filter_le_one Room s.rooms rid
        (fun p => mhas p.2.participants sid) h.1.2.2 ?_
      intro p hp hmm
      obtain ⟨ws2, hc2, hr2⟩ := h.2.1 p hp sid hmm
      rw [hc] at hc2
      cases hc2
      rw [hrid] at hr2
      injection hr2 with h3
      exact h3.symm

theorem join_membership_only {s : ServerState} (sid roomB : String) (now : Nat)
    (h : InvFull s) : joinMembershipOnlyB s sid roomB now = true := by
  unfold joinMembershipOnlyB
  rw [Bool.and_eq_true]
  constructor
  · cases hc : mlook s.conns sid with
    | none =>
      have h1 : mhas s.conns sid = false := by simp [mhas, hc]
      simp [h1]
    | some ws0 =>
      have h1 : mhas s.conns sid = true := by simp [mhas, hc]
      obtain ⟨⟨r, hlr, hmem⟩, _⟩ := @join_mem_props s sid roomB now ws0 h hc
      simp only [h1, if_true]
      rw [hlr]
      exact hmem
  · rw [List.all_eq_true]
    intro p hp
    by_cases hb : p.1 = roomB
    · simp [hb]
    · cases hc : mlook s.conns sid with
      | none =>
        rw [joinRoom_not_conn hc] at hp
        simp [not_conn_gone h.2.1 hc p hp]
      | some ws0 =>
        have := (@join_mem_props s sid roomB now ws0 h hc).2 p hp hb
        simp [this]

/-- C4 counterexample: the claim fails as stated, even in a run with no
session-id collisions.  A session joins the room whose code is the empty
string and then joins room "B".  The join handler's leave-current-room
step is guarded by the JavaScript-truthy check `if (ws.roomId)`, which is
false for "", so the session is never removed from the first room and
afterwards is a member of two rooms simultaneously.  (A colliding connect,
see C7, breaks the claim independently.) -/
theorem c4_counterexample :
    roomsContaining
      (runOpsS initialState
        [.connectOp (some "a") "f1" "g1" "mobile" none 0,
         .frameOp "a" (.wellFormed (.joinRoomMsg "")) 1,
         .frameOp "a" (.wellFormed (.joinRoomMsg "B")) 2]) "a" = 2 := by
  decide

/-- C4 amended: in every run whose connects never reuse the id of a
still-registered session and whose joins never name the empty-string room
code, each session id is a member of at most one room at every step, and
handling a join of room B leaves the session a participant of B (when
registered) and of no other room — the join handler removes it from its
previous room first.  Without those provisos membership in two rooms at
once is reachable: a colliding connect duplicates the id across rooms
(C7), and a join of the falsy empty code is never undone by the
leave-first step. -/
theorem c4_amended_single_room (ops : List Op) (sid roomB : String) (now : Nat)
    (hwf : wfRun initialState ops = true) :
    roomsContaining (runOpsS initialState ops) sid ≤ 1 ∧
    joinMembershipOnlyB (runOpsS initialState ops) sid roomB now = true :=
  ⟨roomsContaining_le_one (invFull_reachable ops hwf) sid,
   join_membership_only sid roomB now (invFull_reachable ops hwf)⟩

/-- C4 amended witness: a collision-free run in which "a" joins room
"R1" at connect time and then joins "R2" by message. -/
theorem c4_amended_witness :
    roomsContaining
      (runOpsS initialState
        [.connectOp (some "a") "f1" "g1" "mobile" (some "R1") 0,
         .connectOp (some "b") "f2" "g2" "vr" (some "R1") 1,
         .frameOp "a" (.wellFormed (.joinRoomMsg "R2")) 2]) "a" ≤ 1 ∧
    joinMembershipOnlyB
      (runOpsS initialState
        [.connectOp (some "a") "f1" "g1" "mobile" (some "R1") 0,
         .connectOp (some "b") "f2" "g2" "vr" (some "R1") 1,
         .frameOp "a" (.wellFormed (.joinRoomMsg "R2")) 2]) "a" "R1" 3 = true :=
  c4_amended_single_room
    [.connectOp (some "a") "f1" "g1" "mobile" (some "R1") 0,
     .connectOp (some "b") "f2" "g2" "vr" (some "R1") 1,
     .frameOp "a" (.wellFormed (.joinRoomMsg "R2")) 2] "a" "R1" 3 (by decide)

/-! ### Claim C2: pairing_success in the development server -/

/-- Whether an envelope is a `pairing_success` broadcast. -/
def isPairingEnvB : Envelope → Bool
  | .pairingSuccess _ => true
  | _ => false

/-- Whether an envelope is an `error` envelope. -/
def isErrorEnvB : Envelope → Bool
  | .error _ _ => true
  | _ => false

/-- Whether the room holds at least one `mobile` and one `vr` session —
the condition the development server tests after every join. -/
def roomHasPairB (s : ServerState) (rid : String) : Bool :=
  match mlook s.rooms rid with
  | some room =>
    room.participants.any (fun p => p.2.deviceType == "mobile") &&
    room.participants.any (fun p => p.2.deviceType == "vr")
  | none => false

theorem map_bcast_any_envPred (Q : Envelope → Bool) (env : Envelope) :
    ∀ l : List (String × PInfo),
      ((l.map (fun p => Ev.bcast p.1 env)).any (fun e => Q (envOf e))) =
        (Q env && !((l.map (fun p => Ev.bcast p.1 env)).isEmpty)) := by
  intro l
  induction l with
  | nil => simp
  | cons hd tl ih =>
    have hb : (fun e => Q (envOf e)) (Ev.bcast hd.1 env) = Q env := rfl
    simp only [List.map_cons, List.any_cons, List.isEmpty_cons, ih, hb]
    cases Q env <;> simp

theorem broadcast_any_envPred (Q : Envelope → Bool) (s : ServerState) (rid : String)
    (env : Envelope) (excl : Option String) :
    (broadcastToRoom s rid env excl).any (fun e => Q (envOf e)) =
      (Q env && !((broadcastToRoom s rid env excl).isEmpty)) := by
  unfold broadcastToRoom
  cases mlook s.rooms rid with
  | none => simp
  | some room => exact map_bcast_any_envPred Q env _

theorem isPairingEv_envPred : isPairingEv = fun e => isPairingEnvB (envOf e) := by
  funext e
  cases e <;> rfl

theorem isErrorEv_envPred : isErrorEv = fun e => isErrorEnvB (envOf e) := by
  funext e
  cases e <;> rfl

theorem broadcast_any_pairing (s : ServerState) (rid : String) (env : Envelope)
    (excl : Option String) :
    (broadcastToRoom s rid env excl).any isPairingEv =
      (isPairingEnvB env && !((broadcastToRoom s rid env excl).isEmpty)) := by
  rw [isPairingEv_envPred]
  exact broadcast_any_envPred _ s rid env excl

theorem broadcast_any_error (s : ServerState) (rid : String) (env : Envelope)
    (excl : Option String) :
    (broadcastToRoom s rid env excl).any isErrorEv =
      (isErrorEnvB env && !((broadcastToRoom s rid env excl).isEmpty)) := by
  rw [isErrorEv_envPred]
  exact broadcast_any_envPred _ s rid env excl

theorem broadcast_no_pairing {env : Envelope} (henv : isPairingEnvB env = false)
    (s : ServerState) (rid : String) (excl : Option String) :
    (broadcastToRoom s rid env excl).any isPairingEv = false := by
  rw [broadcast_any_pairing, henv]
  rfl

theorem broadcast_nonempty_of_recip {s : ServerState} {rid sid2 : String}
    {excl : Option String} (env : Envelope)
    (hcond : recipCondB s rid sid2 excl = true) :
    (broadcastToRoom s rid env excl).isEmpty = false := by
  have h := broadcast_any_recip s rid env excl sid2
  rw [hcond] at h
  obtain ⟨e, he, _⟩ := List.any_eq_true.mp h
  cases hl : broadcastToRoom s rid env excl with
  | nil => rw [hl] at he; simp at he
  | cons a t => rfl

theorem leave_no_pairing (s : ServerState) (sid : String) :
    (leaveRoom s sid).2.any isPairingEv = false := by
  cases hc : mlook s.conns sid with
  | none => rw [leaveRoom_not_conn hc]; rfl
  | some ws =>
    cases hrid : ws.roomId with
    | none => rw [leaveRoom_no_roomId hc hrid]; rfl
    | some rid =>
      by_cases hr0 : rid = ""
      · rw [leaveRoom_empty_rid hc (hr0 ▸ hrid)]; rfl
      · cases hroom : mlook s.rooms rid with
        | none => rw [leaveRoom_room_missing hc hrid hroom]; rfl
        | some room =>
          rw [leaveRoom_eq hc hrid hr0 hroom]
          exact @broadcast_no_pairing (.participantLeft sid ws.deviceType) rfl _ _ _

theorem jal_no_pairing (s1 : ServerState) (sid rid dt : String) (now : Nat) :
    (joinRoomAfterLeave s1 sid rid dt now).2.any isPairingEv = false := by
  unfold joinRoomAfterLeave
  rw [List.any_append]
  have h1 : ∀ (s2 : ServerState) (parts : List (String × PInfo)) (c : Nat),
      (sendEv s2 sid (.roomJoined rid parts c)).any isPairingEv = false := by
    intro s2 parts c
    unfold sendEv
    by_cases h : connIsOpen s2 sid = true <;> simp [h, isPairingEv, envOf]
  rw [h1, @broadcast_no_pairing (.participantJoined sid dt now) rfl]
  rfl

theorem join_no_pairing (s : ServerState) (sid rid : String) (now : Nat) :
    (joinRoom s sid rid now).2.any isPairingEv = false := by
  cases hc : mlook s.conns sid with
  | none => rw [joinRoom_not_conn hc]; rfl
  | some ws0 =>
    rw [@joinRoom_unfold s sid rid now ws0 hc]
    by_cases hj : truthy ws0.roomId
    · simp only [hj, if_true]
      rw [List.any_append, leave_no_pairing, jal_no_pairing]
      rfl
    · simp only [hj, Bool.false_eq_true, if_false]
      rw [List.any_append, jal_no_pairing]
      rfl

theorem jal_conn_after {s1 : ServerState} {sid rid dt : String} {now : Nat}
    {ws1 : WsState} (hc : mlook s1.conns sid = some ws1) :
    mlook (joinRoomAfterLeave s1 sid rid dt now).1.conns sid =
      some { ws1 with roomId := some rid } := by
  cases hr : mlook s1.rooms rid with
  | none => rw [jal_fresh hc hr]; exact mlook_mset_self _ _ _
  | some room => rw [jal_existing hc hr]; exact mlook_mset_self _ _ _

theorem jal_lookup_self {s1 : ServerState} {sid rid dt : String} {now : Nat}
    {ws1 : WsState} (hc : mlook s1.conns sid = some ws1) :
    ∃ room1, mlook (joinRoomAfterLeave s1 sid rid dt now).1.rooms rid = some room1 ∧
      mhas room1.participants sid = true := by
  cases hr : mlook s1.rooms rid with
  | none =>
    rw [jal_fresh hc hr]
    exact ⟨_, mlook_mset_self _ _ _, by simp [mhas, mlook]⟩
  | some room =>
    rw [jal_existing hc hr]
    exact ⟨_, mlook_mset_self _ _ _, mhas_mset_self _ _ _⟩

theorem pairingEvsOf_any {s2 : ServerState} {rid sid2 : String}
    (hcond : recipCondB s2 rid sid2 none = true) :
    (pairingEvsOf s2 rid).any isPairingEv = roomHasPairB s2 rid := by
  unfold pairingEvsOf roomHasPairB
  cases hrm : mlook s2.rooms rid with
  | none => rfl
  | some room =>
    dsimp only
    by_cases hc2 : (room.participants.any (fun p => p.2.deviceType == "mobile") &&
        room.participants.any (fun p => p.2.deviceType == "vr")) = true
    · rw [if_pos hc2, hc2, broadcast_any_pairing]
      rw [broadcast_nonempty_of_recip _ hcond]
      rfl
    · rw [if_neg hc2]
      have h3 : (room.participants.any (fun p => p.2.deviceType == "mobile") &&
          room.participants.any (fun p => p.2.deviceType == "vr")) = false := by
        simpa using hc2
      rw [h3]
      rfl

/-- A concrete development-server population: three open connections,
two of device class `mobile` and one of class `vr`, none yet in a room. -/
def pairDemoState : ServerState :=
  ⟨[("m", ⟨"mobile", none, true, none⟩), ("v", ⟨"vr", none, true, none⟩),
    ("m2", ⟨"mobile", none, true, none⟩)], [], []⟩

/-- C2 counterexample: the claim fails as stated.  After "m" (mobile) and
"v" (vr) have joined room "R", the room already holds a complementary
pair; a further `mobile` session "m2" joining the same room nevertheless
triggers another `pairing_success` broadcast, because the development
server checks only the post-join snapshot and never the pre-join state. -/
theorem c2_counterexample :
    roomHasPairB (localJoinRoom (localJoinRoom pairDemoState "m" "R" 1).1 "v" "R" 2).1
      "R" = true ∧
    (localJoinRoom (localJoinRoom (localJoinRoom pairDemoState "m" "R" 1).1
      "v" "R" 2).1 "m2" "R" 3).2.any isPairingEv = true := by
  decide

/-- C2 amended: after every join handled by the development server on
behalf of an open connection, a `pairing_success` broadcast is delivered
iff the post-join participant set of the room contains at least one
`mobile` and at least one `vr` session — regardless of the pre-join
state, so it re-fires on every such join; a leave never emits
`pairing_success`; and the deployment server's join never emits it at
all. -/
theorem c2_amended_pairing_condition (s : ServerState) (sid rid : String) (now : Nat)
    (hopen : connIsOpen s sid = true) :
    ((localJoinRoom s sid rid now).2.any isPairingEv =
      roomHasPairB (localJoinRoom s sid rid now).1 rid) ∧
    (leaveRoom s sid).2.any isPairingEv = false ∧
    (joinRoom s sid rid now).2.any isPairingEv = false := by
  obtain ⟨ws0, hc, hoWs⟩ : ∃ ws0, mlook s.conns sid = some ws0 ∧ ws0.isOpen = true := by
    unfold connIsOpen at hopen
    cases hx : mlook s.conns sid with
    | none => rw [hx] at hopen; simp at hopen
    | some w =>
      rw [hx] at hopen
      exact ⟨w, rfl, hopen⟩
  refine ⟨?_, leave_no_pairing s sid, join_no_pairing s sid rid now⟩
  rw [@localJoinRoom_unfold s sid rid now ws0 hc]
  by_cases hj : truthy ws0.roomId
  · simp only [hj, if_true]
    obtain ⟨ws2, hc2, _, ho2⟩ := leave_conn_present hc
    have hcond : recipCondB
        (joinRoomAfterLeave (leaveRoom s sid).1 sid rid ws0.deviceType now).1
        rid sid none = true := by
      obtain ⟨room1, hlr, hmm⟩ :=
        @jal_lookup_self (leaveRoom s sid).1 sid rid ws0.deviceType now ws2 hc2
      have hcn := @jal_conn_after (leaveRoom s sid).1 sid rid ws0.deviceType now ws2 hc2
      unfold recipCondB
      rw [hlr]
      simp [hmm, connIsOpen, hcn, ho2, hoWs]
    rw [List.any_append, List.any_append, leave_no_pairing, jal_no_pairing,
      pairingEvsOf_any hcond]
    simp
  · simp only [hj, Bool.false_eq_true, if_false]
    have hcond : recipCondB
        (joinRoomAfterLeave s sid rid ws0.deviceType now).1 rid sid none = true := by
      obtain ⟨room1, hlr, hmm⟩ := @jal_lookup_self s sid rid ws0.deviceType now ws0 hc
      have hcn := @jal_conn_after s sid rid ws0.deviceType now ws0 hc
      unfold recipCondB
      rw [hlr]
      simp [hmm, connIsOpen, hcn, hoWs]
    rw [List.any_append, List.any_append, jal_no_pairing, pairingEvsOf_any hcond]
    simp

/-- C2 amended witness: the first join of the demo population ("m" into
the empty room "R") emits no pairing broadcast, matching the post-join
condition, and leave and deployment-server join emit none. -/
theorem c2_amended_witness :
    ((localJoinRoom pairDemoState "m" "R" 1).2.any isPairingEv =
      roomHasPairB (localJoinRoom pairDemoState "m" "R" 1).1 "R") ∧
    (leaveRoom pairDemoState "m").2.any isPairingEv = false ∧
    (joinRoom pairDemoState "m" "R" 1).2.any isPairingEv = false :=
  c2_amended_pairing_condition pairDemoState "m" "R" 1 (by decide)

/-! ### Claim C3: pose_data rate limiting -/

/-- The enriched `pose_data` envelope the server broadcasts for a message
received at time `tm.1`. -/
def poseEnv (sid dt : String) (tm : Nat × PoseMsg) : Envelope :=
  .poseData sid dt tm.1 tm.2.landmarks tm.2.metadata tm.1
    ((tm.1 : Int) - (tm.2.timestamp : Int))

theorem broadcast_state_eq {s' s : ServerState} (hr : s'.rooms = s.rooms)
    (hcn : s'.conns = s.conns) (rid : String) (env : Envelope) (ex : Option String) :
    broadcastToRoom s' rid env ex = broadcastToRoom s rid env ex := by
  unfold broadcastToRoom connIsOpen
  simp only [hr, hcn]

theorem broadcast_excl_self (s : ServerState) (rid : String) (env : Envelope)
    (sid : String) :
    (broadcastToRoom s rid env (some sid)).any (fun e => recipOf e == sid) = false := by
  rw [broadcast_any_recip]
  unfold recipCondB
  cases mlook s.rooms rid with
  | none => rfl
  | some room => simp

theorem broadcast_no_error {env : Envelope} (henv : isErrorEnvB env = false)
    (s : ServerState) (rid : String) (excl : Option String) :
    (broadcastToRoom s rid env excl).any isErrorEv = false := by
  rw [broadcast_any_error, henv]
  rfl

theorem handlePoseData_in_window {s : ServerState} {sid : String} {m : PoseMsg}
    {t : Nat} {ws : WsState} {rid : String} {c r : Nat}
    (hc : mlook s.conns sid = some ws) (hrid : ws.roomId = some rid)
    (hr0 : rid ≠ "")
    (hlim : mlook s.poseLimits sid = some ⟨c, r⟩) (ht : t ≤ r) :
    handlePoseData s sid m t =
      ({ s with poseLimits := (mset s.poseLimits sid ⟨c + 1, r⟩) },
       if c < 30 then
         broadcastToRoom s rid
           (.poseData sid ws.deviceType t m.landmarks m.metadata t
             ((t : Int) - (m.timestamp : Int))) (some sid)
       else []) := by
  unfold handlePoseData
  rw [hlim]
  simp only [Option.getD_some]
  rw [if_neg (Nat.not_lt.mpr ht : ¬ ((⟨c, r⟩ : RateEntry).resetTime < t))]
  by_cases h30 : 30 < c + 1
  · rw [if_pos h30, if_neg (by omega : ¬ c < 30)]
  · rw [if_neg h30]
    simp only [hc, hrid]
    rw [if_neg hr0]
    rw [if_pos (by omega : c < 30)]
    rw [Prod.mk.injEq]
    exact ⟨rfl, broadcast_state_eq rfl rfl _ _ _⟩

theorem handlePoseData_fresh {s : ServerState} {sid : String} {m : PoseMsg}
    {t : Nat} {ws : WsState} {rid : String}
    (hc : mlook s.conns sid = some ws) (hrid : ws.roomId = some rid)
    (hr0 : rid ≠ "") (hfresh : mlook s.poseLimits sid = none) :
    handlePoseData s sid m t =
      ({ s with poseLimits := (mset s.poseLimits sid ⟨1, t + 1000⟩) },
       broadcastToRoom s rid
         (.poseData sid ws.deviceType t m.landmarks m.metadata t
           ((t : Int) - (m.timestamp : Int))) (some sid)) := by
  unfold handlePoseData
  rw [hfresh]
  simp only [Option.getD_none]
  rw [if_neg (by simp : ¬ ((⟨0, t + 1000⟩ : RateEntry).resetTime < t))]
  rw [if_neg (by norm_num : ¬ ((30 : Nat) < 0 + 1))]
  simp only [hc, hrid]
  rw [if_neg hr0]
  rw [Prod.mk.injEq]
  exact ⟨rfl, broadcast_state_eq rfl rfl _ _ _⟩

theorem runPoses_window (sid rid dt : String) (hr0 : rid ≠ "") :
    ∀ (msgs : List (Nat × PoseMsg)) (s : ServerState) (ws : WsState) (c r i : Nat),
      mlook s.conns sid = some ws → ws.roomId = some rid → ws.deviceType = dt →
      mlook s.poseLimits sid = some ⟨c, r⟩ →
      msgs.all (fun p => p.1 ≤ r) = true →
      (runPoses s sid msgs).2.length = msgs.length ∧
      (runPoses s sid msgs).1.rooms = s.rooms ∧
      (runPoses s sid msgs).1.conns = s.conns ∧
      ((runPoses s sid msgs).2.getD i []) =
        (if i < msgs.length ∧ c + i < 30 then
          broadcastToRoom s rid (poseEnv sid dt (msgs.getD i (0, default))) (some sid)
         else []) := by
  intro msgs
  induction msgs with
  | nil =>
    intro s ws c r i hc hrid hdt hlim hin
    refine ⟨rfl, rfl, rfl, ?_⟩
    simp [runPoses]
  | cons hd tl ih =>
    intro s ws c r i hc hrid hdt hlim hin
    obtain ⟨t, m⟩ := hd
    have hin2 : t ≤ r ∧ tl.all (fun p => p.1 ≤ r) = true := by simpa using hin
    have hstep := @handlePoseData_in_window s sid m t ws rid c r hc hrid hr0 hlim hin2.1
    have hc1 : mlook ({ s with
        poseLimits := (mset s.poseLimits sid ⟨c + 1, r⟩) } : ServerState).conns sid =
        some ws := hc
    have hlim1 : mlook ({ s with
        poseLimits := (mset s.poseLimits sid ⟨c + 1, r⟩) } : ServerState).poseLimits sid =
        some ⟨c + 1, r⟩ := mlook_mset_self _ _ _
    have IH := fun j => ih { s with poseLimits := (mset s.poseLimits sid ⟨c + 1, r⟩) }
      ws (c + 1) r j hc1 hrid hdt hlim1 hin2.2
    show (runPoses s sid ((t, m) :: tl)).2.length = ((t, m) :: tl).length ∧ _
    unfold runPoses
    rw [hstep]
    refine ⟨?_, (IH 0).2.1, (IH 0).2.2.1, ?_⟩
    · simpa using (IH 0).1
    · cases i with
      | zero =>
        simp only [List.getD_cons_zero, List.length_cons, Nat.add_zero]
        have hco : (0 < tl.length + 1 ∧ c < 30) ↔ c < 30 := by omega
        rw [if_congr hco rfl rfl]
        by_cases hlt : c < 30
        · rw [if_pos hlt, if_pos hlt]
          rw [poseEnv, hdt]
        · rw [if_neg hlt, if_neg hlt]
      | succ j =>
        simp only [List.getD_cons_succ, List.length_cons]
        rw [(IH j).2.2.2]
        have hco : (j < tl.length ∧ c + 1 + j < 30) ↔
            (j + 1 < tl.length + 1 ∧ c + (j + 1) < 30) := by omega
        rw [if_congr hco rfl rfl]
        by_cases hcond : j + 1 < tl.length + 1 ∧ c + (j + 1) < 30
        · rw [if_pos hcond, if_pos hcond]
          exact broadcast_state_eq rfl rfl _ _ _
        · rw [if_neg hcond, if_neg hcond]

/-- C3 counterexample: the claim fails for a session in the (reachable)
empty-string room code.  The first pose message of a fresh window is
admitted by the rate limiter (the counter advances to 1, well under the
cap of 30), the room "" holds another open non-excluded participant "b"
who satisfies the broadcast recipient condition, and yet nothing at all
is emitted: the truthy guard `if (ws.roomId)` is false for "", so the
admitted message is silently discarded instead of being broadcast. -/
theorem c3_counterexample :
    (handlePoseData
      ⟨[("a", ⟨"mobile", some "", true, none⟩), ("b", ⟨"vr", some "", true, none⟩)],
       [("", ⟨0, [("a", ⟨"mobile", 0⟩), ("b", ⟨"vr", 0⟩)]⟩)], []⟩
      "a" ⟨5, [], "md"⟩ 10).2 = [] ∧
    mlook (handlePoseData
      ⟨[("a", ⟨"mobile", some "", true, none⟩), ("b", ⟨"vr", some "", true, none⟩)],
       [("", ⟨0, [("a", ⟨"mobile", 0⟩), ("b", ⟨"vr", 0⟩)]⟩)], []⟩
      "a" ⟨5, [], "md"⟩ 10).1.poseLimits "a" = some ⟨1, 1010⟩ ∧
    recipCondB
      ⟨[("a", ⟨"mobile", some "", true, none⟩), ("b", ⟨"vr", some "", true, none⟩)],
       [("", ⟨0, [("a", ⟨"mobile", 0⟩), ("b", ⟨"vr", 0⟩)]⟩)], []⟩
      "" "b" (some "a") = true := by
  decide

/-- C3 amended: a session in a room with a non-empty code whose
rate-limiter entry is fresh sends a burst of `pose_data` messages all
timestamped within the first message's 1000 ms window.  Exactly the first
30 messages are admitted and broadcast to the rest of the room (sender
excluded); every later message of the window is dropped with no event at
all — in particular nothing is sent back to the sender and no error
envelope is produced anywhere.  For the empty room code the limiter
still counts every message but even the admitted ones are silently not
broadcast (see the counterexample). -/
theorem c3_rate_limiter (s : ServerState) (sid rid : String) (ws : WsState)
    (t0 : Nat) (m0 : PoseMsg) (rest : List (Nat × PoseMsg)) (i : Nat)
    (hc : mlook s.conns sid = some ws) (hrid : ws.roomId = some rid)
    (hr0 : rid ≠ "") (hfresh : mlook s.poseLimits sid = none)
    (hwin : rest.all (fun p => p.1 ≤ t0 + 1000) = true) :
    (runPoses s sid ((t0, m0) :: rest)).2.length = rest.length + 1 ∧
    ((runPoses s sid ((t0, m0) :: rest)).2.getD i []) =
      (if i < rest.length + 1 ∧ i < 30 then
        broadcastToRoom s rid
          (poseEnv sid ws.deviceType (((t0, m0) :: rest).getD i (0, default)))
          (some sid)
       else []) ∧
    ((runPoses s sid ((t0, m0) :: rest)).2.getD i []).any
      (fun e => recipOf e == sid) = false ∧
    ((runPoses s sid ((t0, m0) :: rest)).2.getD i []).any isErrorEv = false := by
  have hstep := @handlePoseData_fresh s sid m0 t0 ws rid hc hrid hr0 hfresh
  have hc1 : mlook ({ s with
      poseLimits := (mset s.poseLimits sid ⟨1, t0 + 1000⟩) } : ServerState).conns sid =
      some ws := hc
  have hlim1 : mlook ({ s with
      poseLimits := (mset s.poseLimits sid ⟨1, t0 + 1000⟩) } : ServerState).poseLimits
      sid = some ⟨1, t0 + 1000⟩ := mlook_mset_self _ _ _
  have IH := fun j => runPoses_window sid rid ws.deviceType hr0 rest
    { s with poseLimits := (mset s.poseLimits sid ⟨1, t0 + 1000⟩) }
    ws 1 (t0 + 1000) j hc1 hrid rfl hlim1 hwin
  have hmain : ((runPoses s sid ((t0, m0) :: rest)).2.getD i []) =
      (if i < rest.length + 1 ∧ i < 30 then
        broadcastToRoom s rid
          (poseEnv sid ws.deviceType (((t0, m0) :: rest).getD i (0, default)))
          (some sid)
       else []) := by
    unfold runPoses
    rw [hstep]
    cases i with
    | zero =>
      simp only [List.getD_cons_zero]
      rw [if_pos (by omega : (0 < rest.length + 1 ∧ (0 : Nat) < 30))]
      rfl
    | succ j =>
      simp only [List.getD_cons_succ]
      rw [(IH j).2.2.2]
      have hco : (j < rest.length ∧ 1 + j < 30) ↔
          (j + 1 < rest.length + 1 ∧ j + 1 < 30) := by omega
      rw [if_congr hco rfl rfl]
      by_cases hcond : j + 1 < rest.length + 1 ∧ j + 1 < 30
      · rw [if_pos hcond, if_pos hcond]
        exact broadcast_state_eq rfl rfl _ _ _
      · rw [if_neg hcond, if_neg hcond]
  refine ⟨?_, hmain, ?_, ?_⟩
  · show (runPoses s sid ((t0, m0) :: rest)).2.length = rest.length + 1
    unfold runPoses
    rw [hstep]
    simpa using (IH 0).1
  · rw [hmain]
    by_cases hcond : i < rest.length + 1 ∧ i < 30
    · rw [if_pos hcond]
      exact broadcast_excl_self _ _ _ _
    · rw [if_neg hcond]
      rfl
  · rw [hmain]
    by_cases hcond : i < rest.length + 1 ∧ i < 30
    · rw [if_pos hcond]
      exact @broadcast_no_error
        (poseEnv sid ws.deviceType (((t0, m0) :: rest).getD i (0, default)))
        rfl _ _ _
    · rw [if_neg hcond]
      rfl

/-- C3 witness: a two-member room, 35 pose messages in one window; the
34th message (index 33) is dropped with no output. -/
theorem c3_witness :
    (runPoses
      ⟨[("a", ⟨"mobile", some "R", true, none⟩), ("b", ⟨"vr", some "R", true, none⟩)],
       [("R", ⟨0, [("a", ⟨"mobile", 0⟩), ("b", ⟨"vr", 0⟩)]⟩)], []⟩
      "a" ((10, ⟨5, [], "md"⟩) :: List.replicate 34 (10, ⟨5, [], "md"⟩))).2.length =
      (List.replicate 34 ((10 : Nat), (⟨5, [], "md"⟩ : PoseMsg))).length + 1 ∧
    ((runPoses
      ⟨[("a", ⟨"mobile", some "R", true, none⟩), ("b", ⟨"vr", some "R", true, none⟩)],
       [("R", ⟨0, [("a", ⟨"mobile", 0⟩), ("b", ⟨"vr", 0⟩)]⟩)], []⟩
      "a" ((10, ⟨5, [], "md"⟩) :: List.replicate 34 (10, ⟨5, [], "md"⟩))).2.getD 33 []) =
      (if 33 < (List.replicate 34 ((10 : Nat), (⟨5, [], "md"⟩ : PoseMsg))).length + 1 ∧
          (33 : Nat) < 30 then
        broadcastToRoom
          ⟨[("a", ⟨"mobile", some "R", true, none⟩), ("b", ⟨"vr", some "R", true, none⟩)],
           [("R", ⟨0, [("a", ⟨"mobile", 0⟩), ("b", ⟨"vr", 0⟩)]⟩)], []⟩
          "R" (poseEnv "a" (⟨"mobile", some "R", true, none⟩ : WsState).deviceType
            (((10, ⟨5, [], "md"⟩) :: List.replicate 34 (10, ⟨5, [], "md"⟩)).getD 33
              (0, default))) (some "a")
       else []) ∧
    ((runPoses
      ⟨[("a", ⟨"mobile", some "R", true, none⟩), ("b", ⟨"vr", some "R", true, none⟩)],
       [("R", ⟨0, [("a", ⟨"mobile", 0⟩), ("b", ⟨"vr", 0⟩)]⟩)], []⟩
      "a" ((10, ⟨5, [], "md"⟩) :: List.replicate 34 (10, ⟨5, [], "md"⟩))).2.getD 33 []).any
      (fun e => recipOf e == "a") = false ∧
    ((runPoses
      ⟨[("a", ⟨"mobile", some "R", true, none⟩), ("b", ⟨"vr", some "R", true, none⟩)],
       [("R", ⟨0, [("a", ⟨"mobile", 0⟩), ("b", ⟨"vr", 0⟩)]⟩)], []⟩
      "a" ((10, ⟨5, [], "md"⟩) :: List.replicate 34 (10, ⟨5, [], "md"⟩))).2.getD 33 []).any
      isErrorEv = false :=
  c3_rate_limiter
    ⟨[("a", ⟨"mobile", some "R", true, none⟩), ("b", ⟨"vr", some "R", true, none⟩)],
     [("R", ⟨0, [("a", ⟨"mobile", 0⟩), ("b", ⟨"vr", 0⟩)]⟩)], []⟩
    "a" "R" ⟨"mobile", some "R", true, none⟩ 10 ⟨5, [], "md"⟩
    (List.replicate 34 (10, ⟨5, [], "md"⟩)) 33 rfl rfl (by decide) rfl (by decide)

end PT
